import Mathlib

/-!
# Particle filter localization: embedding of `src/particle_filter.cpp`

The member functions of `ParticleFilter` are translated into pure functions over an
explicit filter state.  Conventions of the embedding:

* `double` values are elements of a linearly ordered field `K` (exact arithmetic:
  rounding, overflow and NaN are outside the model); `INFINITY` is the top element
  of `WithTop K`.
* The `<cmath>` functions and `M_PI` used by the source are the fields of a
  `CMath K` record, so every definition is executable for a computable `K`;
  theorems that need analytic facts instantiate the record with the real functions.
* The random engine and the two `<random>` distributions are the fields of a
  `Random K G` record; `G` is the state of the engine (together with whatever the
  distribution objects cache), threaded explicitly through every draw.  Each member
  function default-constructs its own engine, which is the field `seed`.
* A `double[]` parameter is a function `Nat → K` (indexing a pointer).
* `std::vector` is `List`.  `resample` reads `particles` at a drawn index: out of range
  the result is `none`.  The indexed writes of `init` and `updateWeights` are `List.set`;
  their indices are below the size of `particles`, and below the size of `weights`
  whenever the two sequences have equal length.
-/

namespace ParticleFilterLocalization

/-! ## Data model -/

/-- The functions of `<cmath>` and the constant `M_PI` that the source calls. -/
structure CMath (K : Type) where
  sqrt : K → K
  sin : K → K
  cos : K → K
  exp : K → K
  pi : K

/-- The `<random>` facilities the source calls: the default-constructed engine
`std::default_random_engine gen`, one draw of
`std::normal_distribution<double>(mean, stddev)` and one draw of
`std::discrete_distribution<int>(weights)`. -/
structure Random (K G : Type) where
  seed : G
  normal : K → K → G → K × G
  discrete : List K → G → Nat × G

/-- Modelled from the spec: the `Particle` record of `particle_filter.h` (the header is
not among the sources): identifier, pose `(x, y, theta)` and weight, in the order of the
aggregate initialiser in `init`. -/
structure Particle (K : Type) where
  id : Int
  x : K
  y : K
  theta : K
  weight : K

/-- Modelled from the spec: the `LandmarkObs` record of `helper_functions.h` (not among
the sources): identifier and `(x, y)` coordinate. -/
structure LandmarkObs (K : Type) where
  id : Int
  x : K
  y : K

/-- Modelled from the spec: the landmark record `Map::single_landmark_s` of `map.h` (not
among the sources): identifier and fixed map-frame coordinate. -/
structure single_landmark_s (K : Type) where
  id_i : Int
  x_f : K
  y_f : K

/-- Modelled from the spec: the class `Map` of `map.h` (not among the sources): the
read-only ordered collection of landmarks. -/
structure Map (K : Type) where
  landmark_list : List (single_landmark_s K)

/-- Modelled from the spec: the data members of class `ParticleFilter`
(`particle_filter.h` is not among the sources): the particle count, the initialisation
flag, the particles and the parallel weight sequence. -/
structure ParticleFilter (K : Type) where
  num_particles : Nat
  is_initialized : Bool
  particles : List (Particle K)
  weights : List K

variable {K G : Type}

/-- A value-initialised `Particle` (what `resize` appends). -/
def Particle.zero [Zero K] : Particle K := ⟨0, 0, 0, 0, 0⟩

/-- A value-initialised `LandmarkObs` (what `unordered_map::operator[]` inserts). -/
def LandmarkObs.zero [Zero K] : LandmarkObs K := ⟨0, 0, 0⟩

/-- Modelled from the spec: `dist` of `helper_functions.h` (not among the sources), the
Euclidean distance between `(x1, y1)` and `(x2, y2)`. -/
def dist (M : CMath K) [LinearOrderedField K] (x1 y1 x2 y2 : K) : K :=
  M.sqrt ((x2 - x1) * (x2 - x1) + (y2 - y1) * (y2 - y1))

/-! ## `ParticleFilter::dataAssociation` -/

/-- One iteration of the inner loop of `dataAssociation`: the state is
`(min_distance, min_id)`. -/
def nearest_step [LinearOrderedField K] (M : CMath K) (cur_obs : LandmarkObs K)
    (st : WithTop K × Int) (cur_pred : LandmarkObs K) : WithTop K × Int :=
  let cur_dist := dist M cur_pred.x cur_pred.y cur_obs.x cur_obs.y
  if (cur_dist : WithTop K) < st.1 then ((cur_dist : WithTop K), cur_pred.id) else st

/-- The inner loop of `dataAssociation`, started at `min_distance = INFINITY`,
`min_id = 0`. -/
def nearest [LinearOrderedField K] (M : CMath K) (predicted : List (LandmarkObs K))
    (cur_obs : LandmarkObs K) : WithTop K × Int :=
  predicted.foldl (nearest_step M cur_obs) (⊤, 0)

/-- `ParticleFilter::dataAssociation`: every observation gets `min_id` as its id. -/
def dataAssociation [LinearOrderedField K] (M : CMath K) (predicted : List (LandmarkObs K))
    (observations : List (LandmarkObs K)) : List (LandmarkObs K) :=
  observations.map (fun cur_obs => { cur_obs with id := (nearest M predicted cur_obs).2 })

/-! ## `ParticleFilter::init` -/

/-- The effect of `std::vector::resize (n)` with value-initialised new elements `d`. -/
def resize {α : Type} (xs : List α) (n : Nat) (d : α) : List α :=
  xs.take n ++ List.replicate (n - xs.length) d

/-- One iteration of the loop of `init`; the state is `(particles, weights, gen)`. -/
def init_step [LinearOrderedField K] (R : Random K G) (x y theta : K) (std : Nat → K)
    (st : List (Particle K) × List K × G) (i : Nat) : List (Particle K) × List K × G :=
  let dx := R.normal x (std 0) st.2.2
  let dy := R.normal y (std 1) dx.2
  let dt := R.normal theta (std 2) dy.2
  let cur_x := dx.1
  let cur_y := dy.1
  let cur_theta := dt.1
  let cur_weight : K := 1
  let cur_particle : Particle K := ⟨(i : Int), cur_x, cur_y, cur_theta, cur_weight⟩
  (st.1.set i cur_particle, st.2.1.set i cur_weight, dt.2)

/-- `ParticleFilter::init`. -/
def init [LinearOrderedField K] (R : Random K G) (pf : ParticleFilter K) (x y theta : K)
    (std : Nat → K) : ParticleFilter K :=
  let num_particles : Nat := 100
  let particles := resize pf.particles num_particles Particle.zero
  let weights := resize pf.weights num_particles 0
  let st := (List.range num_particles).foldl (init_step R x y theta std)
    (particles, weights, R.seed)
  { num_particles := num_particles, is_initialized := true,
    particles := st.1, weights := st.2.1 }

/-! ## `ParticleFilter::prediction` -/

/-- The mean `new_x_mean` computed in the loop body of `prediction`; the literal
`0.0000001` is `1 / 10000000`. -/
def new_x_mean [LinearOrderedField K] (M : CMath K) (cur_particle : Particle K)
    (delta_t velocity yaw_rate : K) : K :=
  cur_particle.x + (if |yaw_rate| < 1 / 10000000 then
      velocity * delta_t * M.cos cur_particle.theta
    else
      velocity / yaw_rate *
        (M.sin (cur_particle.theta + yaw_rate * delta_t) - M.sin cur_particle.theta))

/-- The mean `new_y_mean` computed in the loop body of `prediction`. -/
def new_y_mean [LinearOrderedField K] (M : CMath K) (cur_particle : Particle K)
    (delta_t velocity yaw_rate : K) : K :=
  cur_particle.y + (if |yaw_rate| < 1 / 10000000 then
      velocity * delta_t * M.sin cur_particle.theta
    else
      velocity / yaw_rate *
        (M.cos cur_particle.theta - M.cos (cur_particle.theta + yaw_rate * delta_t)))

/-- The mean `new_theta_mean` computed in the loop body of `prediction`. -/
def new_theta_mean [LinearOrderedField K] (cur_particle : Particle K)
    (delta_t yaw_rate : K) : K :=
  cur_particle.theta + yaw_rate * delta_t

/-- The loop body of `prediction` for one particle: the three means are computed from the
old pose, then x, y and theta are drawn in this order. -/
def prediction_step [LinearOrderedField K] (M : CMath K) (R : Random K G) (delta_t : K)
    (std_pos : Nat → K) (velocity yaw_rate : K) (cur_particle : Particle K) (gen : G) :
    Particle K × G :=
  let dx := R.normal (new_x_mean M cur_particle delta_t velocity yaw_rate) (std_pos 0) gen
  let dy := R.normal (new_y_mean M cur_particle delta_t velocity yaw_rate) (std_pos 1) dx.2
  let dt := R.normal (new_theta_mean cur_particle delta_t yaw_rate) (std_pos 2) dy.2
  ({ cur_particle with x := dx.1, y := dy.1, theta := dt.1 }, dt.2)

/-- The range-for loop of `prediction` over the particles, threading the engine. -/
def prediction_loop [LinearOrderedField K] (M : CMath K) (R : Random K G) (delta_t : K)
    (std_pos : Nat → K) (velocity yaw_rate : K) : List (Particle K) → G → List (Particle K)
  | [], _ => []
  | cur_particle :: rest, gen =>
    let r := prediction_step M R delta_t std_pos velocity yaw_rate cur_particle gen
    r.1 :: prediction_loop M R delta_t std_pos velocity yaw_rate rest r.2

/-- `ParticleFilter::prediction`. -/
def prediction [LinearOrderedField K] (M : CMath K) (R : Random K G) (pf : ParticleFilter K)
    (delta_t : K) (std_pos : Nat → K) (velocity yaw_rate : K) : ParticleFilter K :=
  { pf with
    particles := prediction_loop M R delta_t std_pos velocity yaw_rate pf.particles R.seed }

/-! ## `ParticleFilter::updateWeights` -/

/-- `predictedMap.emplace (k, v)` on the `std::unordered_map<int, LandmarkObs>`, kept as an
association list: an existing key is left untouched. -/
def emplace (m : List (Int × LandmarkObs K)) (k : Int) (v : LandmarkObs K) :
    List (Int × LandmarkObs K) :=
  if m.any (fun e => e.1 == k) then m else m ++ [(k, v)]

/-- `predictedMap[k]`: the mapped value, inserting a value-initialised one when the key is
absent; returns the value and the map afterwards. -/
def lookup [Zero K] (m : List (Int × LandmarkObs K)) (k : Int) :
    LandmarkObs K × List (Int × LandmarkObs K) :=
  match m.find? (fun e => e.1 == k) with
  | some e => (e.2, m)
  | none => (LandmarkObs.zero, m ++ [(k, LandmarkObs.zero)])

/-- The `prediction` record built for one landmark in `updateWeights` (lines 117-120). -/
def transform [LinearOrderedField K] (M : CMath K) (cur_particle : Particle K)
    (landmark : single_landmark_s K) : LandmarkObs K :=
  { id := landmark.id_i
    x := landmark.x_f * M.cos cur_particle.theta - landmark.y_f * M.sin cur_particle.theta
      + cur_particle.x
    y := landmark.x_f * M.sin cur_particle.theta + landmark.y_f * M.cos cur_particle.theta
      + cur_particle.y }

/-- One iteration of the landmark loop of `updateWeights`; the state is
`(predicted, predictedMap)`. -/
def predict_step [LinearOrderedField K] (M : CMath K) (sensor_range : K)
    (cur_particle : Particle K)
    (st : List (LandmarkObs K) × List (Int × LandmarkObs K)) (landmark : single_landmark_s K) :
    List (LandmarkObs K) × List (Int × LandmarkObs K) :=
  let prediction := transform M cur_particle landmark
  if dist M prediction.x prediction.y cur_particle.x cur_particle.y ≤ sensor_range then
    (st.1 ++ [prediction], emplace st.2 prediction.id prediction)
  else st

/-- The landmark loop of `updateWeights` for one particle: `(predicted, predictedMap)`. -/
def predict [LinearOrderedField K] (M : CMath K) (sensor_range : K) (cur_particle : Particle K)
    (map_landmarks : Map K) : List (LandmarkObs K) × List (Int × LandmarkObs K) :=
  map_landmarks.landmark_list.foldl (predict_step M sensor_range cur_particle) ([], [])

/-- The value `new_weight` computed for one observation and its looked-up prediction
(lines 142-147). -/
def new_weight [LinearOrderedField K] (M : CMath K) (std_landmark : Nat → K)
    (cur_obs cur_pred : LandmarkObs K) : K :=
  let dx := cur_obs.x - cur_pred.x
  let dy := cur_obs.y - cur_pred.y
  1 / (M.pi * 2 * std_landmark 0 * std_landmark 1) *
    M.exp (-1 * (dx ^ 2 / std_landmark 0 ^ 2 + dy ^ 2 / std_landmark 1 ^ 2))

/-- One iteration of the observation loop of `updateWeights`; the state is
`(new_weight_product, predictedMap)`. -/
def weight_step [LinearOrderedField K] (M : CMath K) (std_landmark : Nat → K)
    (st : K × List (Int × LandmarkObs K)) (cur_obs : LandmarkObs K) :
    K × List (Int × LandmarkObs K) :=
  let r := lookup st.2 cur_obs.id
  (st.1 * new_weight M std_landmark cur_obs r.1, r.2)

/-- The body of the particle loop of `updateWeights` up to the assignment: the landmark
loop, the association, and the running product started at 1.  Returns
`(new_weight_product, observations)`, the observations as relabelled. -/
def particle_weight [LinearOrderedField K] (M : CMath K) (sensor_range : K)
    (std_landmark : Nat → K) (observations : List (LandmarkObs K)) (map_landmarks : Map K)
    (cur_particle : Particle K) : K × List (LandmarkObs K) :=
  let pr := predict M sensor_range cur_particle map_landmarks
  let observations := dataAssociation M pr.1 observations
  ((observations.foldl (weight_step M std_landmark) (1, pr.2)).1, observations)

/-- One iteration of the particle loop of `updateWeights`; the state is
`(particles, weights, observations)` (the by-value parameter `observations` is relabelled
by every iteration and carried to the next).  The loop bound keeps `particle_index` below
the size of `particles`, so the `none` branch is never taken. -/
def updateWeights_step [LinearOrderedField K] (M : CMath K) (sensor_range : K)
    (std_landmark : Nat → K) (map_landmarks : Map K)
    (st : List (Particle K) × List K × List (LandmarkObs K)) (particle_index : Nat) :
    List (Particle K) × List K × List (LandmarkObs K) :=
  match st.1[particle_index]? with
  | none => st
  | some cur_particle =>
    let r := particle_weight M sensor_range std_landmark st.2.2 map_landmarks cur_particle
    (st.1.set particle_index { cur_particle with weight := r.1 },
     st.2.1.set particle_index r.1, r.2)

/-- `ParticleFilter::updateWeights`. -/
def updateWeights [LinearOrderedField K] (M : CMath K) (pf : ParticleFilter K)
    (sensor_range : K) (std_landmark : Nat → K) (observations : List (LandmarkObs K))
    (map_landmarks : Map K) : ParticleFilter K :=
  let st := (List.range pf.particles.length).foldl
    (updateWeights_step M sensor_range std_landmark map_landmarks)
    (pf.particles, pf.weights, observations)
  { pf with particles := st.1, weights := st.2.1 }

/-! ## `ParticleFilter::resample` -/

/-- The loop of `resample` with `n` iterations left: draws an index, copies that particle
to the back of `new_particles`.  An index outside the vector gives `none`. -/
def resample_loop (R : Random K G) (weights : List K) (particles : List (Particle K)) :
    Nat → G → List (Particle K) → Option (List (Particle K))
  | 0, _, new_particles => some new_particles
  | n + 1, gen, new_particles =>
    let d := R.discrete weights gen
    match particles[d.1]? with
    | none => none
    | some cur_particle =>
      resample_loop R weights particles n d.2 (new_particles ++ [cur_particle])

/-- `ParticleFilter::resample`: only `particles` is assigned. -/
def resample (R : Random K G) (pf : ParticleFilter K) : Option (ParticleFilter K) :=
  (resample_loop R pf.weights pf.particles pf.num_particles R.seed []).map
    (fun new_particles => { pf with particles := new_particles })

/-! ## States of a session -/

/-- The filter states reached by `init` followed by any sequence of `prediction`,
`updateWeights` and `resample` calls. -/
inductive Reachable [LinearOrderedField K] (M : CMath K) (R : Random K G) :
    ParticleFilter K → Prop
  | init (pf : ParticleFilter K) (x y theta : K) (std : Nat → K) :
      Reachable M R (init R pf x y theta std)
  | prediction (pf : ParticleFilter K) (delta_t : K) (std_pos : Nat → K)
      (velocity yaw_rate : K) :
      Reachable M R pf → Reachable M R (prediction M R pf delta_t std_pos velocity yaw_rate)
  | updateWeights (pf : ParticleFilter K) (sensor_range : K) (std_landmark : Nat → K)
      (observations : List (LandmarkObs K)) (map_landmarks : Map K) :
      Reachable M R pf →
      Reachable M R (updateWeights M pf sensor_range std_landmark observations map_landmarks)
  | resample (pf pf2 : ParticleFilter K) :
      Reachable M R pf → resample R pf = some pf2 → Reachable M R pf2

/-- The sampler returns in-range indices: a draw from a non-empty weight sequence is a
valid index into it. -/
def InRange (R : Random K G) : Prop :=
  ∀ (ws : List K) (g : G), ws ≠ [] → (R.discrete ws g).1 < ws.length

/-- A sampler without noise: every normal draw returns its mean, every discrete draw
returns index 0; the engine has a single state. -/
def Random.noiseFree [Zero K] : Random K Unit :=
  { seed := (), normal := fun mean _ gen => (mean, gen), discrete := fun _ gen => (0, gen) }

/-- The engine state at the start of iteration `i` of the loop of `init` (three draws per
iteration). -/
def init_gen [LinearOrderedField K] (R : Random K G) (x y theta : K) (std : Nat → K) :
    Nat → G
  | 0 => R.seed
  | i + 1 =>
    (R.normal theta (std 2)
      (R.normal y (std 1) (R.normal x (std 0) (init_gen R x y theta std i)).2).2).2

/-- The particle that iteration `i` of the loop of `init` stores at index `i`. -/
def init_particle [LinearOrderedField K] (R : Random K G) (x y theta : K) (std : Nat → K)
    (i : Nat) : Particle K :=
  let dx := R.normal x (std 0) (init_gen R x y theta std i)
  let dy := R.normal y (std 1) dx.2
  let dt := R.normal theta (std 2) dy.2
  ⟨(i : Int), dx.1, dy.1, dt.1, 1⟩

/-- A sampler whose engine state is a counter: the `n`-th normal draw of a call returns
`mean + n` (counting from 0), every discrete draw returns index 0. -/
def Random.counting [LinearOrderedField K] : Random K K :=
  { seed := 0, normal := fun mean _ gen => (mean + gen, gen + 1),
    discrete := fun _ gen => (0, gen) }

/-- The filter states reached by `init` followed by any sequence of `prediction`,
`updateWeights` and `resample` calls in which every `updateWeights` call is given positive
sensor-noise standard deviations. -/
inductive ReachablePos [LinearOrderedField K] (M : CMath K) (R : Random K G) :
    ParticleFilter K → Prop
  | init (pf : ParticleFilter K) (x y theta : K) (std : Nat → K) :
      ReachablePos M R (init R pf x y theta std)
  | prediction (pf : ParticleFilter K) (delta_t : K) (std_pos : Nat → K)
      (velocity yaw_rate : K) :
      ReachablePos M R pf →
      ReachablePos M R (prediction M R pf delta_t std_pos velocity yaw_rate)
  | updateWeights (pf : ParticleFilter K) (sensor_range : K) (std_landmark : Nat → K)
      (observations : List (LandmarkObs K)) (map_landmarks : Map K) :
      0 < std_landmark 0 → 0 < std_landmark 1 → ReachablePos M R pf →
      ReachablePos M R
        (updateWeights M pf sensor_range std_landmark observations map_landmarks)
  | resample (pf pf2 : ParticleFilter K) :
      ReachablePos M R pf → resample R pf = some pf2 → ReachablePos M R pf2

/-- The indices that the `n` iterations of the loop of `resample` draw, in order, starting
from engine state `gen`. -/
def resample_indices (R : Random K G) (weights : List K) : Nat → G → List Nat
  | 0, _ => []
  | n + 1, gen =>
    (R.discrete weights gen).1 :: resample_indices R weights n (R.discrete weights gen).2

/-- Modelled from the spec: a filter on which `init` has not been called (the constructor
is in `particle_filter.h`, not among the sources).  The particle set is created only at
initialisation, so there are no particles and no weights; the particle count is 0 and the
flag is unset. -/
def ParticleFilter.fresh : ParticleFilter K :=
  { num_particles := 0, is_initialized := false, particles := [], weights := [] }

/-- A sampler that keeps the contract of `std::discrete_distribution` when the weights
have a positive sum: it returns the first index of positive weight.  When the sum is not
positive, where the contract leaves the draw undefined, it returns index 0 (`last = false`)
or the last index (`last = true`), both valid for a non-empty weight sequence.  Normal
draws return their mean. -/
def Random.onZeroSum [LinearOrderedField K] (last : Bool) : Random K Unit :=
  { seed := (), normal := fun mean _ gen => (mean, gen),
    discrete := fun weights gen =>
      (if 0 < weights.sum then weights.findIdx (fun w => decide (0 < w))
       else if last then weights.length - 1 else 0,
       gen) }

/-- The record of `<cmath>` functions over the reals. -/
def CMath.IsReal (M : CMath ℝ) : Prop :=
  M.sqrt = Real.sqrt ∧ M.sin = Real.sin ∧ M.cos = Real.cos ∧ M.exp = Real.exp ∧
    M.pi = Real.pi

/-! ## Association -/

section Association

variable [LinearOrderedField K]

/-- The inner loop from an arbitrary state: the result is the start state or the entry of
some sighting, and its distance is below the start distance and every distance seen. -/
theorem nearest_foldl (M : CMath K) (o : LandmarkObs K) (l : List (LandmarkObs K))
    (acc : WithTop K × Int) :
    (l.foldl (nearest_step M o) acc = acc ∨
      ∃ p ∈ l, l.foldl (nearest_step M o) acc = (((dist M p.x p.y o.x o.y : K) : WithTop K), p.id)) ∧
    (l.foldl (nearest_step M o) acc).1 ≤ acc.1 ∧
    ∀ q ∈ l, (l.foldl (nearest_step M o) acc).1 ≤ ((dist M q.x q.y o.x o.y : K) : WithTop K) := by
  induction l generalizing acc with
  | nil => simp
  | cons a l ih =>
    rw [List.foldl_cons]
    obtain ⟨h1, h2, h3⟩ := ih (nearest_step M o acc a)
    have hstep : (nearest_step M o acc a).1 ≤ acc.1 ∧
        (nearest_step M o acc a).1 ≤ ((dist M a.x a.y o.x o.y : K) : WithTop K) ∧
        (nearest_step M o acc a = acc ∨
          nearest_step M o acc a = (((dist M a.x a.y o.x o.y : K) : WithTop K), a.id)) := by
      unfold nearest_step
      by_cases hlt : ((dist M a.x a.y o.x o.y : K) : WithTop K) < acc.1
      · simp only [hlt, if_true]
        exact ⟨le_of_lt hlt, le_refl _, Or.inr trivial⟩
      · simp only [hlt, if_false]
        exact ⟨le_refl _, not_lt.mp hlt, Or.inl trivial⟩
    obtain ⟨s1, s2, s3⟩ := hstep
    refine ⟨?_, le_trans h2 s1, ?_⟩
    · rcases h1 with h1 | ⟨p, hp, h1⟩
      · rcases s3 with s3 | s3
        · left; rw [h1, s3]
        · right; exact ⟨a, List.mem_cons_self _ _, by rw [h1, s3]⟩
      · right; exact ⟨p, List.mem_cons_of_mem _ hp, h1⟩
    · intro q hq
      rcases List.mem_cons.mp hq with rfl | hq
      · exact le_trans h2 s2
      · exact h3 q hq

/-- For a non-empty sighting list the loop ends on the entry of a sighting of minimal
distance. -/
theorem nearest_spec (M : CMath K) (o : LandmarkObs K) (l : List (LandmarkObs K))
    (hl : l ≠ []) :
    ∃ p ∈ l, nearest M l o = (((dist M p.x p.y o.x o.y : K) : WithTop K), p.id) ∧
      ∀ q ∈ l, dist M p.x p.y o.x o.y ≤ dist M q.x q.y o.x o.y := by
  obtain ⟨h1, -, h3⟩ := nearest_foldl M o l (⊤, 0)
  rcases h1 with h1 | ⟨p, hp, h1⟩
  · exfalso
    obtain ⟨a, ha⟩ := List.exists_mem_of_ne_nil l hl
    have := h3 a ha
    rw [h1] at this
    simp at this
  · refine ⟨p, hp, h1, ?_⟩
    intro q hq
    have := h3 q hq
    rw [h1] at this
    exact WithTop.coe_le_coe.mp this

/-- With no sightings the loop keeps its start state. -/
theorem nearest_nil (M : CMath K) (o : LandmarkObs K) : nearest M [] o = (⊤, 0) := rfl

theorem dataAssociation_length (M : CMath K) (predicted observations : List (LandmarkObs K)) :
    (dataAssociation M predicted observations).length = observations.length := by
  simp [dataAssociation]

/-- Association leaves the coordinates of the observations as they were. -/
theorem dataAssociation_coords (M : CMath K) (predicted observations : List (LandmarkObs K)) :
    (dataAssociation M predicted observations).map (fun o => (o.x, o.y)) =
      observations.map (fun o => (o.x, o.y)) := by
  simp [dataAssociation, List.map_map, Function.comp_def]

end Association

/-- C1. Nearest-neighbour association over the reals: for a non-empty list of predicted
sightings, `dataAssociation` keeps every observation's coordinates and gives it the id of a
predicted sighting whose Euclidean distance to the observation is minimal over all
predicted sightings. -/
theorem dataAssociation_nearest (M : CMath ℝ) (hM : M.sqrt = Real.sqrt)
    (predicted observations : List (LandmarkObs ℝ)) (h : predicted ≠ []) :
    List.Forall₂
      (fun (o r : LandmarkObs ℝ) => r.x = o.x ∧ r.y = o.y ∧
        ∃ p ∈ predicted, r.id = p.id ∧
          ∀ q ∈ predicted,
            Real.sqrt ((o.x - p.x) ^ 2 + (o.y - p.y) ^ 2) ≤
              Real.sqrt ((o.x - q.x) ^ 2 + (o.y - q.y) ^ 2))
      observations (dataAssociation M predicted observations) := by
  unfold dataAssociation
  rw [List.forall₂_map_right_iff]
  apply List.forall₂_same.mpr
  intro o _
  obtain ⟨p, hp, hn, hmin⟩ := nearest_spec M o predicted h
  refine ⟨rfl, rfl, p, hp, by rw [hn], ?_⟩
  intro q hq
  have := hmin q hq
  simp only [dist, hM] at this
  simpa [sq] using this

/-- C1 at the spec's example: sightings `(0,0)` id 1 and `(10,10)` id 2, one observation
at `(1,1)`; the observation is labelled 1. -/
theorem dataAssociation_nearest_witness :
    ([⟨1, 0, 0⟩, ⟨2, 10, 10⟩] : List (LandmarkObs ℝ)) ≠ [] ∧
    dataAssociation (CMath.mk Real.sqrt Real.sin Real.cos Real.exp Real.pi)
      [⟨1, 0, 0⟩, ⟨2, 10, 10⟩] [⟨7, 1, 1⟩] = [⟨1, 1, 1⟩] ∧
    List.Forall₂
      (fun (o r : LandmarkObs ℝ) => r.x = o.x ∧ r.y = o.y ∧
        ∃ p ∈ ([⟨1, 0, 0⟩, ⟨2, 10, 10⟩] : List (LandmarkObs ℝ)), r.id = p.id ∧
          ∀ q ∈ ([⟨1, 0, 0⟩, ⟨2, 10, 10⟩] : List (LandmarkObs ℝ)),
            Real.sqrt ((o.x - p.x) ^ 2 + (o.y - p.y) ^ 2) ≤
              Real.sqrt ((o.x - q.x) ^ 2 + (o.y - q.y) ^ 2))
      [⟨7, 1, 1⟩]
      (dataAssociation (CMath.mk Real.sqrt Real.sin Real.cos Real.exp Real.pi)
        [⟨1, 0, 0⟩, ⟨2, 10, 10⟩] [⟨7, 1, 1⟩]) := by
  refine ⟨by simp, ?_, dataAssociation_nearest _ rfl _ _ (by simp)⟩
  have h1 : ¬ Real.sqrt ((1 - 10) * (1 - 10) + (1 - 10) * (1 - 10)) <
      Real.sqrt (1 + 1) := by
    rw [not_lt]
    exact Real.sqrt_le_sqrt (by norm_num)
  simp [dataAssociation, nearest, nearest_step, dist, h1]

/-! ## Prediction -/

section Prediction

variable [LinearOrderedField K]

/-- When the three draws return their means, the loop of `prediction` replaces every pose
by the three means computed from the old pose. -/
theorem prediction_loop_means (M : CMath K) (R : Random K G) (delta_t : K)
    (std_pos : Nat → K) (velocity yaw_rate : K)
    (hR : ∀ (i : Nat) (m : K) (g : G), i < 3 → (R.normal m (std_pos i) g).1 = m)
    (ps : List (Particle K)) (gen : G) :
    prediction_loop M R delta_t std_pos velocity yaw_rate ps gen =
      ps.map (fun p => { p with
        x := new_x_mean M p delta_t velocity yaw_rate
        y := new_y_mean M p delta_t velocity yaw_rate
        theta := new_theta_mean p delta_t yaw_rate }) := by
  induction ps generalizing gen with
  | nil => rfl
  | cons p ps ih =>
    simp only [prediction_loop, List.map_cons, prediction_step, ih]
    rw [hR 0 _ _ (by norm_num), hR 1 _ _ (by norm_num), hR 2 _ _ (by norm_num)]

theorem prediction_loop_length (M : CMath K) (R : Random K G) (delta_t : K)
    (std_pos : Nat → K) (velocity yaw_rate : K) (ps : List (Particle K)) (gen : G) :
    (prediction_loop M R delta_t std_pos velocity yaw_rate ps gen).length = ps.length := by
  induction ps generalizing gen with
  | nil => rfl
  | cons p ps ih => simp [prediction_loop, ih]

/-- The loop of `prediction` leaves every weight field as it was. -/
theorem prediction_loop_weight (M : CMath K) (R : Random K G) (delta_t : K)
    (std_pos : Nat → K) (velocity yaw_rate : K) (ps : List (Particle K)) (gen : G) :
    (prediction_loop M R delta_t std_pos velocity yaw_rate ps gen).map (fun p => p.weight) =
      ps.map (fun p => p.weight) := by
  induction ps generalizing gen with
  | nil => rfl
  | cons p ps ih => simp [prediction_loop, prediction_step, ih]

end Prediction

/-- C3. Zero-yaw-rate motion: with yaw rate 0, the three process-noise deviations 0 and a
sampler whose draws at deviation 0 return their mean, `prediction` replaces every pose
`(x, y, θ)` by `(x + v·Δt·cos θ, y + v·Δt·sin θ, θ)` and changes nothing else. -/
theorem prediction_zero_yaw_rate [LinearOrderedField K] (M : CMath K) (R : Random K G)
    (hR : ∀ (m : K) (g : G), (R.normal m 0 g).1 = m) (std_pos : Nat → K)
    (hstd : ∀ i, i < 3 → std_pos i = 0) (pf : ParticleFilter K) (delta_t velocity : K) :
    prediction M R pf delta_t std_pos velocity 0 =
      { pf with particles := pf.particles.map (fun p => { p with
          x := p.x + velocity * delta_t * M.cos p.theta
          y := p.y + velocity * delta_t * M.sin p.theta
          theta := p.theta }) } := by
  unfold prediction
  rw [prediction_loop_means M R delta_t std_pos velocity 0
    (fun i m g hi => by rw [hstd i hi]; exact hR m g)]
  simp [new_x_mean, new_y_mean, new_theta_mean]

/-- C3 at the spec's example: `ω = 0`, `v = 10`, `Δt = 1`, a particle at the origin with
heading 0 moves to `(10, 0)` with heading 0. -/
theorem prediction_zero_yaw_rate_witness :
    (∀ (m : ℝ) (g : Unit), ((Random.noiseFree : Random ℝ Unit).normal m 0 g).1 = m) ∧
    (∀ i, i < 3 → (fun _ => 0 : Nat → ℝ) i = 0) ∧
    prediction (CMath.mk Real.sqrt Real.sin Real.cos Real.exp Real.pi) Random.noiseFree
      ⟨1, true, [⟨0, 0, 0, 0, 1⟩], [1]⟩ 1 (fun _ => 0) 10 0 =
      ⟨1, true, [⟨0, 10, 0, 0, 1⟩], [1]⟩ := by
  refine ⟨fun _ _ => rfl, fun _ _ => rfl, ?_⟩
  rw [prediction_zero_yaw_rate _ _ (fun _ _ => rfl) _ (fun _ _ => rfl)]
  simp

/-- C4, as the claim states it, fails: with `ω = 10⁻⁸` (below the threshold `10⁻⁷`),
`Δt = 1`, `v = 10` and no noise, a particle at the origin with heading 0 gets heading
`10⁻⁸`, not 0. -/
theorem prediction_straight_heading_counterexample :
    |(1 / 100000000 : ℝ)| < 1 / 10000000 ∧
    prediction (CMath.mk Real.sqrt Real.sin Real.cos Real.exp Real.pi) Random.noiseFree
      ⟨1, true, [⟨0, 0, 0, 0, 1⟩], [1]⟩ 1 (fun _ => 0) 10 (1 / 100000000) =
      ⟨1, true, [⟨0, 10, 0, 1 / 100000000, 1⟩], [1]⟩ ∧
    (1 / 100000000 : ℝ) ≠ 0 := by
  have habs : |(1 / 100000000 : ℝ)| < 1 / 10000000 := by
    rw [abs_of_pos (by norm_num)]; norm_num
  refine ⟨habs, ?_, by norm_num⟩
  simp only [prediction, prediction_loop, prediction_step, Random.noiseFree, new_x_mean,
    new_y_mean, new_theta_mean, habs, if_true]
  simp

/-- C4 as amended. Straight-line branch: for `|ω|` below the threshold and a sampler whose
draws return their mean, `prediction` replaces every pose `(x, y, θ)` by
`(x + v·Δt·cos θ, y + v·Δt·sin θ, θ + ω·Δt)` and changes nothing else. -/
theorem prediction_straight_line [LinearOrderedField K] (M : CMath K) (R : Random K G)
    (hR : ∀ (m s : K) (g : G), (R.normal m s g).1 = m) (std_pos : Nat → K)
    (pf : ParticleFilter K) (delta_t velocity yaw_rate : K)
    (hω : |yaw_rate| < 1 / 10000000) :
    prediction M R pf delta_t std_pos velocity yaw_rate =
      { pf with particles := pf.particles.map (fun p => { p with
          x := p.x + velocity * delta_t * M.cos p.theta
          y := p.y + velocity * delta_t * M.sin p.theta
          theta := p.theta + yaw_rate * delta_t }) } := by
  unfold prediction
  rw [prediction_loop_means M R delta_t std_pos velocity yaw_rate (fun i m g _ => hR m _ g)]
  simp only [new_x_mean, new_y_mean, new_theta_mean, if_pos hω]

/-- C4 as amended, at `ω = 10⁻⁸`, `Δt = 2`, `v = 10`, heading 0. -/
theorem prediction_straight_line_witness :
    (∀ (m s : ℝ) (g : Unit), ((Random.noiseFree : Random ℝ Unit).normal m s g).1 = m) ∧
    |(1 / 100000000 : ℝ)| < 1 / 10000000 ∧
    prediction (CMath.mk Real.sqrt Real.sin Real.cos Real.exp Real.pi) Random.noiseFree
      ⟨1, true, [⟨0, 3, 4, 0, 1⟩], [1]⟩ 2 (fun _ => 0) 10 (1 / 100000000) =
      ⟨1, true, [⟨0, 23, 4, 2 / 100000000, 1⟩], [1]⟩ := by
  have habs : |(1 / 100000000 : ℝ)| < 1 / 10000000 := by
    rw [abs_of_pos (by norm_num)]; norm_num
  refine ⟨fun _ _ _ => rfl, habs, ?_⟩
  rw [prediction_straight_line _ _ (fun _ _ _ => rfl) _ _ _ _ _ habs]
  norm_num

/-- C5. Curved-motion branch: for `|ω|` at or above the threshold and a sampler whose draws
return their mean, `prediction` replaces every pose `(x, y, θ)` by
`(x + (v/ω)·(sin(θ+ωΔt) − sin θ), y + (v/ω)·(cos θ − cos(θ+ωΔt)), θ + ωΔt)` and changes
nothing else. -/
theorem prediction_curved [LinearOrderedField K] (M : CMath K) (R : Random K G)
    (hR : ∀ (m s : K) (g : G), (R.normal m s g).1 = m) (std_pos : Nat → K)
    (pf : ParticleFilter K) (delta_t velocity yaw_rate : K)
    (hω : 1 / 10000000 ≤ |yaw_rate|) :
    prediction M R pf delta_t std_pos velocity yaw_rate =
      { pf with particles := pf.particles.map (fun p => { p with
          x := p.x + velocity / yaw_rate *
            (M.sin (p.theta + yaw_rate * delta_t) - M.sin p.theta)
          y := p.y + velocity / yaw_rate *
            (M.cos p.theta - M.cos (p.theta + yaw_rate * delta_t))
          theta := p.theta + yaw_rate * delta_t }) } := by
  unfold prediction
  rw [prediction_loop_means M R delta_t std_pos velocity yaw_rate (fun i m g _ => hR m _ g)]
  simp only [new_x_mean, new_y_mean, new_theta_mean, if_neg (not_lt.mpr hω)]

/-- C5 at `ω = 2`, `Δt = 1`, `v = 10`, a particle at `(3, 4)` with heading 0. -/
theorem prediction_curved_witness :
    (∀ (m s : ℝ) (g : Unit), ((Random.noiseFree : Random ℝ Unit).normal m s g).1 = m) ∧
    (1 / 10000000 : ℝ) ≤ |2| ∧
    prediction (CMath.mk Real.sqrt Real.sin Real.cos Real.exp Real.pi) Random.noiseFree
      ⟨1, true, [⟨0, 3, 4, 0, 1⟩], [1]⟩ 1 (fun _ => 0) 10 2 =
      ⟨1, true, [⟨0, 3 + 5 * Real.sin 2, 4 + 5 * (1 - Real.cos 2), 2, 1⟩], [1]⟩ := by
  have habs : (1 / 10000000 : ℝ) ≤ |2| := by
    rw [abs_of_pos (by norm_num)]; norm_num
  refine ⟨fun _ _ _ => rfl, habs, ?_⟩
  rw [prediction_curved _ _ (fun _ _ _ => rfl) _ _ _ _ _ habs]
  norm_num

/-! ## Weight evaluation -/

/-- In a list of sightings with pairwise distinct ids, the entry found for the id of a
member is that member. -/
theorem find_entry_of_nodup (ps : List (LandmarkObs K)) (hnd : (ps.map (fun s => s.id)).Nodup)
    (s : LandmarkObs K) (hs : s ∈ ps) :
    (ps.map (fun s => (s.id, s))).find? (fun e => e.1 == s.id) = some (s.id, s) := by
  induction ps with
  | nil => simp at hs
  | cons a ps ih =>
    rw [List.map_cons, List.nodup_cons] at hnd
    rcases List.mem_cons.mp hs with rfl | hs
    · simp
    · have hne : a.id ≠ s.id := by
        intro heq
        exact hnd.1 (by rw [heq]; exact List.mem_map_of_mem (fun s => s.id) hs)
      rw [List.map_cons, List.find?_cons_of_neg _ (by simpa using hne)]
      exact ih hnd.2 hs

section Weights

variable [LinearOrderedField K]

/-- The landmark loop from an arbitrary state appends, in map order, the transformed
landmarks that pass the range test. -/
theorem predict_foldl_fst (M : CMath K) (sensor_range : K) (p : Particle K)
    (l : List (single_landmark_s K)) (st : List (LandmarkObs K) × List (Int × LandmarkObs K)) :
    (l.foldl (predict_step M sensor_range p) st).1 =
      st.1 ++ (l.filter (fun lm =>
        decide (dist M (transform M p lm).x (transform M p lm).y p.x p.y ≤ sensor_range))).map
          (transform M p) := by
  induction l generalizing st with
  | nil => simp
  | cons a l ih =>
    rw [List.foldl_cons, ih]
    by_cases h : dist M (transform M p a).x (transform M p a).y p.x p.y ≤ sensor_range
    · simp [predict_step, h, List.filter_cons]
    · simp [predict_step, h, List.filter_cons]

theorem predict_fst (M : CMath K) (sensor_range : K) (p : Particle K) (map_landmarks : Map K) :
    (predict M sensor_range p map_landmarks).1 =
      (map_landmarks.landmark_list.filter (fun lm =>
        decide (dist M (transform M p lm).x (transform M p lm).y p.x p.y ≤ sensor_range))).map
          (transform M p) := by
  simp [predict, predict_foldl_fst]

/-- Looking a key up (which may insert a value-initialised entry) does not change what any
later lookup returns. -/
theorem lookup_lookup (m : List (Int × LandmarkObs K)) (k k2 : Int) :
    (lookup (lookup m k).2 k2).1 = (lookup m k2).1 := by
  unfold lookup
  cases hk : m.find? (fun e => e.1 == k) with
  | some e => rfl
  | none =>
    simp only [List.find?_append]
    cases hk2 : m.find? (fun e => e.1 == k2) with
    | some e => rfl
    | none =>
      by_cases h : k = k2
      · simp [h]
      · simp [h]

/-- The observation loop multiplies the running product by one factor per observation,
each computed against the value the map held for the observation's id at the start. -/
theorem weight_foldl (M : CMath K) (std_landmark : Nat → K)
    (obs : List (LandmarkObs K)) (w : K) (m : List (Int × LandmarkObs K)) :
    (obs.foldl (weight_step M std_landmark) (w, m)).1 =
      w * (obs.map (fun o => new_weight M std_landmark o (lookup m o.id).1)).prod := by
  induction obs generalizing w m with
  | nil => simp
  | cons o obs ih =>
    rw [List.foldl_cons]
    simp only [weight_step]
    rw [ih]
    simp only [lookup_lookup, List.map_cons, List.prod_cons, mul_assoc]

/-- The weight computed for one particle, as a product over the relabelled observations. -/
theorem particle_weight_fst (M : CMath K) (sensor_range : K) (std_landmark : Nat → K)
    (obs : List (LandmarkObs K)) (map_landmarks : Map K) (p : Particle K) :
    (particle_weight M sensor_range std_landmark obs map_landmarks p).1 =
      ((dataAssociation M (predict M sensor_range p map_landmarks).1 obs).map
        (fun o => new_weight M std_landmark o
          (lookup (predict M sensor_range p map_landmarks).2 o.id).1)).prod := by
  simp only [particle_weight, weight_foldl, one_mul]

theorem particle_weight_snd (M : CMath K) (sensor_range : K) (std_landmark : Nat → K)
    (obs : List (LandmarkObs K)) (map_landmarks : Map K) (p : Particle K) :
    (particle_weight M sensor_range std_landmark obs map_landmarks p).2 =
      dataAssociation M (predict M sensor_range p map_landmarks).1 obs := rfl

/-- Association reads only the coordinates of the observations. -/
theorem dataAssociation_congr (M : CMath K) (predicted : List (LandmarkObs K))
    (obs1 obs2 : List (LandmarkObs K))
    (h : obs1.map (fun o => (o.x, o.y)) = obs2.map (fun o => (o.x, o.y))) :
    dataAssociation M predicted obs1 = dataAssociation M predicted obs2 := by
  induction obs1 generalizing obs2 with
  | nil =>
    cases obs2 with
    | nil => rfl
    | cons b obs2 => simp at h
  | cons a obs1 ih =>
    cases obs2 with
    | nil => simp at h
    | cons b obs2 =>
      simp only [List.map_cons, List.cons.injEq, Prod.mk.injEq] at h
      obtain ⟨⟨hx, hy⟩, ht⟩ := h
      have hn : nearest M predicted a = nearest M predicted b := by
        unfold nearest
        congr 1
        funext st q
        simp only [nearest_step, hx, hy]
      have := ih obs2 ht
      simp only [dataAssociation, List.map_cons, List.cons.injEq] at this ⊢
      exact ⟨by rw [hn, hx, hy], this⟩

/-- The weight computed for one particle reads only the coordinates of the observations. -/
theorem particle_weight_congr (M : CMath K) (sensor_range : K) (std_landmark : Nat → K)
    (obs1 obs2 : List (LandmarkObs K)) (map_landmarks : Map K) (p : Particle K)
    (h : obs1.map (fun o => (o.x, o.y)) = obs2.map (fun o => (o.x, o.y))) :
    particle_weight M sensor_range std_landmark obs1 map_landmarks p =
      particle_weight M sensor_range std_landmark obs2 map_landmarks p := by
  simp only [particle_weight, dataAssociation_congr M _ obs1 obs2 h]

/-- The particle loop of `updateWeights` after `k` iterations: the first `k` particles and
weights are rewritten, the rest untouched, and the observations keep their coordinates. -/
theorem updateWeights_foldl (M : CMath K) (sensor_range : K) (std_landmark : Nat → K)
    (map_landmarks : Map K) (ps : List (Particle K)) (ws : List K)
    (obs : List (LandmarkObs K)) (k : Nat) (hk : k ≤ ps.length) :
    ((List.range k).foldl (updateWeights_step M sensor_range std_landmark map_landmarks)
        (ps, ws, obs)).2.2.map (fun o => (o.x, o.y)) = obs.map (fun o => (o.x, o.y)) ∧
    (∀ j, ((List.range k).foldl (updateWeights_step M sensor_range std_landmark map_landmarks)
        (ps, ws, obs)).1[j]? =
      if j < k then (ps[j]?).map (fun p => { p with
        weight := (particle_weight M sensor_range std_landmark obs map_landmarks p).1 })
      else ps[j]?) ∧
    (∀ j, ((List.range k).foldl (updateWeights_step M sensor_range std_landmark map_landmarks)
        (ps, ws, obs)).2.1[j]? =
      if j < k then (ws[j]?).bind (fun _ => (ps[j]?).map (fun p =>
        (particle_weight M sensor_range std_landmark obs map_landmarks p).1))
      else ws[j]?) := by
  induction k with
  | zero => simp
  | succ k ih =>
    obtain ⟨h1, h2, h3⟩ := ih (Nat.le_of_succ_le hk)
    rw [List.range_succ, List.foldl_append, List.foldl_cons, List.foldl_nil]
    generalize (List.range k).foldl
      (updateWeights_step M sensor_range std_landmark map_landmarks) (ps, ws, obs) = st
      at h1 h2 h3
    have hkk : k < ps.length := hk
    have hpk : st.1[k]? = some ps[k] := by
      rw [h2 k, if_neg (lt_irrefl k), List.getElem?_eq_getElem hkk]
    have hlen : k < st.1.length := by
      by_contra hc
      rw [List.getElem?_eq_none (not_lt.mp hc)] at hpk
      exact Option.noConfusion hpk
    have hpw := particle_weight_congr M sensor_range std_landmark st.2.2 obs map_landmarks
      ps[k] h1
    simp only [updateWeights_step, hpk, hpw]
    refine ⟨?_, ?_, ?_⟩
    · rw [particle_weight_snd, dataAssociation_coords]
    · intro j
      rw [List.getElem?_set]
      by_cases hj : k = j
      · subst hj
        simp [hlen, List.getElem?_eq_getElem hkk]
      · rw [if_neg hj, h2 j]
        by_cases hjk : j < k
        · simp [hjk, Nat.lt_succ_of_lt hjk]
        · have : ¬ j < k + 1 := by omega
          simp [hjk, this]
    · intro j
      rw [List.getElem?_set]
      by_cases hj : k = j
      · subst hj
        by_cases hw : k < st.2.1.length
        · have hw2 : st.2.1[k]? = ws[k]? := by rw [h3 k, if_neg (lt_irrefl k)]
          have hw3 : k < ws.length := by
            by_contra hc
            rw [List.getElem?_eq_none (not_lt.mp hc), List.getElem?_eq_getElem hw] at hw2
            exact Option.noConfusion hw2
          simp [hw, List.getElem?_eq_getElem hkk, List.getElem?_eq_getElem hw3]
        · have hw2 : st.2.1[k]? = ws[k]? := by rw [h3 k, if_neg (lt_irrefl k)]
          rw [List.getElem?_eq_none (not_lt.mp hw)] at hw2
          simp [hw, ← hw2]
      · rw [if_neg hj, h3 j]
        by_cases hjk : j < k
        · simp [hjk, Nat.lt_succ_of_lt hjk]
        · have : ¬ j < k + 1 := by omega
          simp [hjk, this]

/-- After `updateWeights` every particle carries the weight computed for it from the
observations as passed in; nothing else of a particle changes. -/
theorem updateWeights_particles (M : CMath K) (pf : ParticleFilter K) (sensor_range : K)
    (std_landmark : Nat → K) (obs : List (LandmarkObs K)) (map_landmarks : Map K) :
    (updateWeights M pf sensor_range std_landmark obs map_landmarks).particles =
      pf.particles.map (fun p => { p with
        weight := (particle_weight M sensor_range std_landmark obs map_landmarks p).1 }) := by
  obtain ⟨-, h2, -⟩ := updateWeights_foldl M sensor_range std_landmark map_landmarks
    pf.particles pf.weights obs pf.particles.length (le_refl _)
  apply List.ext_getElem?
  intro j
  simp only [updateWeights]
  rw [h2 j, List.getElem?_map]
  by_cases hj : j < pf.particles.length
  · simp [hj]
  · simp [hj, List.getElem?_eq_none (not_lt.mp hj)]

/-- After `updateWeights`, entry `j` of the weight sequence is the weight computed for
particle `j` (where both exist; entries beyond the particles are untouched). -/
theorem updateWeights_weights (M : CMath K) (pf : ParticleFilter K) (sensor_range : K)
    (std_landmark : Nat → K) (obs : List (LandmarkObs K)) (map_landmarks : Map K) (j : Nat) :
    (updateWeights M pf sensor_range std_landmark obs map_landmarks).weights[j]? =
      if j < pf.particles.length then
        (pf.weights[j]?).bind (fun _ => (pf.particles[j]?).map (fun p =>
          (particle_weight M sensor_range std_landmark obs map_landmarks p).1))
      else pf.weights[j]? := by
  obtain ⟨-, -, h3⟩ := updateWeights_foldl M sensor_range std_landmark map_landmarks
    pf.particles pf.weights obs pf.particles.length (le_refl _)
  simp only [updateWeights]
  rw [h3 j]

theorem updateWeights_step_length (M : CMath K) (sensor_range : K) (std_landmark : Nat → K)
    (map_landmarks : Map K) (st : List (Particle K) × List K × List (LandmarkObs K))
    (i : Nat) :
    (updateWeights_step M sensor_range std_landmark map_landmarks st i).1.length =
        st.1.length ∧
      (updateWeights_step M sensor_range std_landmark map_landmarks st i).2.1.length =
        st.2.1.length := by
  unfold updateWeights_step
  cases st.1[i]? with
  | none => simp
  | some p => simp

theorem updateWeights_length (M : CMath K) (pf : ParticleFilter K) (sensor_range : K)
    (std_landmark : Nat → K) (obs : List (LandmarkObs K)) (map_landmarks : Map K) :
    (updateWeights M pf sensor_range std_landmark obs map_landmarks).particles.length =
        pf.particles.length ∧
      (updateWeights M pf sensor_range std_landmark obs map_landmarks).weights.length =
        pf.weights.length ∧
      (updateWeights M pf sensor_range std_landmark obs map_landmarks).num_particles =
        pf.num_particles := by
  have key : ∀ (l : List Nat) (st : List (Particle K) × List K × List (LandmarkObs K)),
      (l.foldl (updateWeights_step M sensor_range std_landmark map_landmarks) st).1.length =
          st.1.length ∧
        (l.foldl (updateWeights_step M sensor_range std_landmark map_landmarks) st).2.1.length =
          st.2.1.length := by
    intro l
    induction l with
    | nil => intro st; simp
    | cons a l ih =>
      intro st
      rw [List.foldl_cons]
      obtain ⟨h1, h2⟩ := ih (updateWeights_step M sensor_range std_landmark map_landmarks st a)
      obtain ⟨s1, s2⟩ := updateWeights_step_length M sensor_range std_landmark map_landmarks st a
      exact ⟨h1.trans s1, h2.trans s2⟩
  obtain ⟨h1, h2⟩ := key (List.range pf.particles.length) (pf.particles, pf.weights, obs)
  exact ⟨h1, h2, rfl⟩

/-- With pairwise distinct landmark ids, every `emplace` of the landmark loop inserts: the
map holds exactly the entries `(id, sighting)` of the sighting list. -/
theorem predict_foldl_snd (M : CMath K) (sensor_range : K) (p : Particle K)
    (l : List (single_landmark_s K)) (st : List (LandmarkObs K) × List (Int × LandmarkObs K))
    (hnd : (l.map (fun lm => lm.id_i)).Nodup)
    (hfresh : ∀ s ∈ st.1, s.id ∉ l.map (fun lm => lm.id_i))
    (hst : st.2 = st.1.map (fun s => (s.id, s))) :
    (l.foldl (predict_step M sensor_range p) st).2 =
      (l.foldl (predict_step M sensor_range p) st).1.map (fun s => (s.id, s)) := by
  induction l generalizing st with
  | nil => simpa using hst
  | cons a l ih =>
    rw [List.foldl_cons]
    rw [List.map_cons, List.nodup_cons] at hnd
    apply ih _ hnd.2
    · intro s hs
      unfold predict_step at hs
      by_cases h : dist M (transform M p a).x (transform M p a).y p.x p.y ≤ sensor_range
      · simp only [h, if_true, List.mem_append, List.mem_singleton] at hs
        rcases hs with hs | hs
        · intro hmem
          exact hfresh s hs (List.mem_cons_of_mem _ hmem)
        · subst hs
          exact hnd.1
      · simp only [h, if_false] at hs
        intro hmem
        exact hfresh s hs (List.mem_cons_of_mem _ hmem)
    · unfold predict_step
      by_cases h : dist M (transform M p a).x (transform M p a).y p.x p.y ≤ sensor_range
      · simp only [h, if_true, emplace, List.map_append, List.map_cons, List.map_nil]
        have hany : st.2.any (fun e => e.1 == (transform M p a).id) = false := by
          rw [hst, List.any_eq_false]
          intro e he
          obtain ⟨s, hs, rfl⟩ := List.mem_map.mp he
          simp only [beq_iff_eq]
          intro heq
          exact hfresh s hs (by rw [heq]; simp [transform])
        rw [hany, hst]
        simp
      · simp only [h, if_false]
        exact hst

/-- With pairwise distinct landmark ids, `predictedMap[s.id]` is `s` for every predicted
sighting `s` of the particle. -/
theorem predict_lookup (M : CMath K) (sensor_range : K) (p : Particle K) (map_landmarks : Map K)
    (hnd : (map_landmarks.landmark_list.map (fun lm => lm.id_i)).Nodup)
    (s : LandmarkObs K) (hs : s ∈ (predict M sensor_range p map_landmarks).1) :
    (lookup (predict M sensor_range p map_landmarks).2 s.id).1 = s := by
  have hmap : (predict M sensor_range p map_landmarks).2 =
      (predict M sensor_range p map_landmarks).1.map (fun s => (s.id, s)) :=
    predict_foldl_snd M sensor_range p map_landmarks.landmark_list ([], []) hnd
      (by simp) (by simp)
  have hids : ((predict M sensor_range p map_landmarks).1.map (fun s => s.id)).Nodup := by
    rw [predict_fst, List.map_map]
    have : ((fun (s : LandmarkObs K) => s.id) ∘ transform M p) = fun lm => lm.id_i := by
      funext lm; rfl
    rw [this]
    exact (List.filter_sublist _).map _ |>.nodup hnd
  unfold lookup
  rw [hmap, find_entry_of_nodup _ hids s hs]

/-- With no landmark in range both the sighting list and the map are empty. -/
theorem predict_nil (M : CMath K) (sensor_range : K) (p : Particle K) (map_landmarks : Map K)
    (h : ∀ lm ∈ map_landmarks.landmark_list,
      ¬ dist M (transform M p lm).x (transform M p lm).y p.x p.y ≤ sensor_range) :
    predict M sensor_range p map_landmarks = ([], []) := by
  unfold predict
  generalize map_landmarks.landmark_list = l at h
  induction l with
  | nil => rfl
  | cons a l ih =>
    rw [List.foldl_cons]
    have ha := h a (List.mem_cons_self _ _)
    simp only [predict_step, ha, if_false]
    exact ih (fun lm hlm => h lm (List.mem_cons_of_mem _ hlm))

end Weights

/-- The predicted sightings of a particle over the reals, with the transform and the range
test written out. -/
theorem predicted_sightings_eq (sensor_range : ℝ) (p : Particle ℝ) (map_landmarks : Map ℝ) :
    (predict (CMath.mk Real.sqrt Real.sin Real.cos Real.exp Real.pi) sensor_range p
        map_landmarks).1 =
      (map_landmarks.landmark_list.filter (fun lm =>
        decide (Real.sqrt
          ((p.x - (lm.x_f * Real.cos p.theta - lm.y_f * Real.sin p.theta + p.x)) ^ 2 +
           (p.y - (lm.x_f * Real.sin p.theta + lm.y_f * Real.cos p.theta + p.y)) ^ 2)
          ≤ sensor_range))).map
        (fun lm =>
          { id := lm.id_i
            x := lm.x_f * Real.cos p.theta - lm.y_f * Real.sin p.theta + p.x
            y := lm.x_f * Real.sin p.theta + lm.y_f * Real.cos p.theta + p.y }) := by
  rw [predict_fst]
  simp only [transform, dist, sq]
  rfl

/-- C10. Predicted sighting set over the reals: for a particle `(px, py, θ)` the predicted
sightings built by `updateWeights` are, in map order, the landmarks `(id, lx, ly)` whose
transformed point `(lx·cos θ − ly·sin θ + px, lx·sin θ + ly·cos θ + py)` is at Euclidean
distance at most the sensor range from `(px, py)`; each sighting carries the landmark's id
and the transformed point. -/
theorem predicted_sightings (sensor_range : ℝ) (p : Particle ℝ) (map_landmarks : Map ℝ) :
    (predict (CMath.mk Real.sqrt Real.sin Real.cos Real.exp Real.pi) sensor_range p
        map_landmarks).1 =
      (map_landmarks.landmark_list.filter (fun lm =>
        decide (Real.sqrt
          ((p.x - (lm.x_f * Real.cos p.theta - lm.y_f * Real.sin p.theta + p.x)) ^ 2 +
           (p.y - (lm.x_f * Real.sin p.theta + lm.y_f * Real.cos p.theta + p.y)) ^ 2)
          ≤ sensor_range))).map
        (fun lm =>
          { id := lm.id_i
            x := lm.x_f * Real.cos p.theta - lm.y_f * Real.sin p.theta + p.x
            y := lm.x_f * Real.sin p.theta + lm.y_f * Real.cos p.theta + p.y }) := by
  rw [predict_fst]
  simp only [transform, dist, sq]
  rfl

/-- C7. Weight on exact match over the reals (sensor deviations positive, as the interface
requires, so that no division of the source is by zero; landmark ids pairwise distinct): if
every observation coincides with a predicted sighting of the particle at index `i`,
`updateWeights` sets that particle's weight, and the matching entry of the weight sequence,
to `(1/(2π·σx·σy))^k`, `k` the number of observations. -/
theorem updateWeights_exact_match (M : CMath ℝ) (hM : M.IsReal) (pf : ParticleFilter ℝ)
    (sensor_range : ℝ) (std_landmark : Nat → ℝ) (observations : List (LandmarkObs ℝ))
    (map_landmarks : Map ℝ) (_hσx : 0 < std_landmark 0) (_hσy : 0 < std_landmark 1)
    (hids : (map_landmarks.landmark_list.map (fun lm => lm.id_i)).Nodup)
    (i : Nat) (p : Particle ℝ) (hp : pf.particles[i]? = some p)
    (hmatch : ∀ o ∈ observations,
      ∃ s ∈ (predict M sensor_range p map_landmarks).1, s.x = o.x ∧ s.y = o.y) :
    (updateWeights M pf sensor_range std_landmark observations map_landmarks).particles[i]? =
      some { p with weight :=
        (1 / (2 * Real.pi * std_landmark 0 * std_landmark 1)) ^ observations.length } ∧
    ∀ w, pf.weights[i]? = some w →
      (updateWeights M pf sensor_range std_landmark observations map_landmarks).weights[i]? =
        some ((1 / (2 * Real.pi * std_landmark 0 * std_landmark 1)) ^ observations.length) := by
  obtain ⟨hsqrt, -, -, hexp, hpi⟩ := hM
  have hw : (particle_weight M sensor_range std_landmark observations map_landmarks p).1 =
      (1 / (2 * Real.pi * std_landmark 0 * std_landmark 1)) ^ observations.length := by
    rw [particle_weight_fst, ← dataAssociation_length M
      (predict M sensor_range p map_landmarks).1 observations, ← List.length_map
      (dataAssociation M (predict M sensor_range p map_landmarks).1 observations)
      (fun o => new_weight M std_landmark o
          (lookup (predict M sensor_range p map_landmarks).2 o.id).1)]
    apply List.prod_eq_pow_card
    intro x hx
    obtain ⟨r, hr, rfl⟩ := List.mem_map.mp hx
    unfold dataAssociation at hr
    obtain ⟨o, ho, rfl⟩ := List.mem_map.mp hr
    obtain ⟨s, hs, hsx, hsy⟩ := hmatch o ho
    obtain ⟨q, hq, hn, hmin⟩ :=
      nearest_spec M o (predict M sensor_range p map_landmarks).1 (List.ne_nil_of_mem hs)
    have hle := hmin s hs
    simp only [dist, hsqrt, hsx, hsy, sub_self, mul_zero, add_zero, Real.sqrt_zero] at hle
    have hzero : (o.x - q.x) * (o.x - q.x) + (o.y - q.y) * (o.y - q.y) ≤ 0 :=
      Real.sqrt_eq_zero'.mp (le_antisymm hle (Real.sqrt_nonneg _))
    have hx0 : o.x - q.x = 0 := by
      nlinarith [mul_self_nonneg (o.x - q.x), mul_self_nonneg (o.y - q.y)]
    have hy0 : o.y - q.y = 0 := by
      nlinarith [mul_self_nonneg (o.x - q.x), mul_self_nonneg (o.y - q.y)]
    simp only [hn, predict_lookup M sensor_range p map_landmarks hids q hq, new_weight, hx0,
      hy0, hexp, hpi]
    simp [mul_comm]
  constructor
  · rw [updateWeights_particles, List.getElem?_map, hp, Option.map_some', hw]
  · intro w hwi
    have hi : i < pf.particles.length := by
      by_contra hc
      rw [List.getElem?_eq_none (not_lt.mp hc)] at hp
      exact Option.noConfusion hp
    rw [updateWeights_weights, if_pos hi, hwi, hp]
    simp [hw]

/-- C7 at the spec's example: one landmark at the particle's position, one observation on
it, `σx = σy = 0.3`: the weight is `1/(2π·0.09)`. -/
theorem updateWeights_exact_match_witness :
    (updateWeights (CMath.mk Real.sqrt Real.sin Real.cos Real.exp Real.pi)
      ⟨1, true, [⟨0, 0, 0, 0, 1⟩], [1]⟩ 5 (fun _ => 3 / 10) [⟨0, 0, 0⟩]
      ⟨[⟨1, 0, 0⟩]⟩).particles[0]? =
      some ⟨0, 0, 0, 0, 1 / (2 * Real.pi * (9 / 100))⟩ := by
  have h := (updateWeights_exact_match (CMath.mk Real.sqrt Real.sin Real.cos Real.exp Real.pi)
    ⟨rfl, rfl, rfl, rfl, rfl⟩ ⟨1, true, [⟨0, 0, 0, 0, 1⟩], [1]⟩ 5 (fun _ => 3 / 10)
    [⟨0, 0, 0⟩] ⟨[⟨1, 0, 0⟩]⟩ (by norm_num) (by norm_num) (by simp) 0 ⟨0, 0, 0, 0, 1⟩ rfl
    (by simp [predict, predict_step, transform, dist])).1
  rw [h]
  norm_num
  ring

/-- C2, the code at a failing input: one particle at the origin with heading 0, one
landmark (id 1) at the origin, one observation at `(1, 0)` (residual `(1, 0)`),
`σx = σy = 1`.  `updateWeights` sets the weight to `(1/(2π))·exp(−1)`; the density formula
of the claim gives `(1/(2π))·exp(−(1²/(2·1²) + 0²/(2·1²)))`, a different number: the
exponent of the code has `σ²` where the formula has `2σ²`. -/
theorem updateWeights_density_exponent :
    (updateWeights (CMath.mk Real.sqrt Real.sin Real.cos Real.exp Real.pi)
      ⟨1, true, [⟨0, 0, 0, 0, 1⟩], [1]⟩ 1 (fun _ => 1) [⟨0, 1, 0⟩]
      ⟨[⟨1, 0, 0⟩]⟩).particles = [⟨0, 0, 0, 0, 1 / (2 * Real.pi) * Real.exp (-1)⟩] ∧
    1 / (2 * Real.pi) * Real.exp (-1) ≠
      1 / (2 * Real.pi * 1 * 1) *
        Real.exp (-((1 : ℝ) ^ 2 / (2 * 1 ^ 2) + (0 : ℝ) ^ 2 / (2 * 1 ^ 2))) := by
  constructor
  · rw [updateWeights_particles]
    simp [particle_weight_fst, predict, predict_step, transform, dist, emplace, dataAssociation,
      nearest, nearest_step, lookup, new_weight, mul_comm]
  · intro h
    have hpi : (1 / (2 * Real.pi * 1 * 1) : ℝ) ≠ 0 := by
      have := Real.pi_pos
      positivity
    have h2 : (1 / (2 * Real.pi) : ℝ) = 1 / (2 * Real.pi * 1 * 1) := by ring
    rw [h2] at h
    have h3 := mul_left_cancel₀ hpi h
    have h4 := Real.exp_injective h3
    norm_num at h4

/-- C9, as the claim states it, fails: one particle at the origin, no landmark at all (so
none in range), one observation at `(0, 0)`, `σx = σy = 1`.  `updateWeights` sets the weight
to `1/(2π)`, which is not 0 (it is the weight of a particle whose single observation matches
a sighting exactly). -/
theorem updateWeights_unmatched_counterexample :
    (predict (CMath.mk Real.sqrt Real.sin Real.cos Real.exp Real.pi) 1
      ⟨0, 0, 0, 0, 1⟩ ⟨[]⟩).1 = [] ∧
    (updateWeights (CMath.mk Real.sqrt Real.sin Real.cos Real.exp Real.pi)
      ⟨1, true, [⟨0, 0, 0, 0, 1⟩], [1]⟩ 1 (fun _ => 1) [⟨0, 0, 0⟩]
      ⟨[]⟩).particles = [⟨0, 0, 0, 0, 1 / (2 * Real.pi)⟩] ∧
    1 / (2 * Real.pi) ≠ 0 := by
  refine ⟨rfl, ?_, ?_⟩
  · rw [updateWeights_particles]
    simp [particle_weight_fst, predict, dataAssociation, nearest, lookup, new_weight,
      LandmarkObs.zero, mul_comm]
  · have := Real.pi_pos
    positivity

/-- C9 as amended, over the reals: for a particle at index `i` with no predicted sighting,
every observation `(ox, oy)` is scored against a value-initialised sighting at `(0, 0)`:
`updateWeights` sets the particle's weight to the product over the observations of
`(1/(2π·σx·σy))·exp(−(ox²/σx² + oy²/σy²))`, whatever that product is. -/
theorem updateWeights_unmatched (M : CMath ℝ) (hM : M.IsReal) (pf : ParticleFilter ℝ)
    (sensor_range : ℝ) (std_landmark : Nat → ℝ) (observations : List (LandmarkObs ℝ))
    (map_landmarks : Map ℝ)
    (i : Nat) (p : Particle ℝ) (hp : pf.particles[i]? = some p)
    (hnone : (predict M sensor_range p map_landmarks).1 = []) :
    (updateWeights M pf sensor_range std_landmark observations map_landmarks).particles[i]? =
      some { p with weight := (observations.map (fun o =>
        1 / (2 * Real.pi * std_landmark 0 * std_landmark 1) *
          Real.exp (-(o.x ^ 2 / std_landmark 0 ^ 2 + o.y ^ 2 / std_landmark 1 ^ 2)))).prod } := by
  obtain ⟨-, -, -, hexp, hpi⟩ := hM
  have hpred : predict M sensor_range p map_landmarks = ([], []) := by
    apply predict_nil
    intro lm hlm hin
    rw [predict_fst] at hnone
    have hmem : transform M p lm ∈ List.map (transform M p)
        (map_landmarks.landmark_list.filter (fun lm =>
          decide (dist M (transform M p lm).x (transform M p lm).y p.x p.y ≤ sensor_range))) :=
      List.mem_map_of_mem _ (List.mem_filter.mpr ⟨hlm, by simpa using hin⟩)
    rw [hnone] at hmem
    exact List.not_mem_nil _ hmem
  rw [updateWeights_particles, List.getElem?_map, hp, Option.map_some', particle_weight_fst,
    hpred]
  simp only [dataAssociation, nearest_nil, List.map_map, Function.comp_def, lookup,
    List.find?_nil, new_weight, LandmarkObs.zero, sub_zero, hexp, hpi]
  congr 4
  funext o
  rw [neg_one_mul, mul_comm Real.pi 2]

/-- C9 as amended, at a particle at the origin, a single landmark at `(3, 4)` (distance 5,
sensor range 1), observations at `(0, 0)` and `(1, 0)`, `σx = σy = 1`. -/
theorem updateWeights_unmatched_witness :
    (updateWeights (CMath.mk Real.sqrt Real.sin Real.cos Real.exp Real.pi)
      ⟨1, true, [⟨0, 0, 0, 0, 1⟩], [1]⟩ 1 (fun _ => 1) [⟨5, 0, 0⟩, ⟨6, 1, 0⟩]
      ⟨[⟨1, 3, 4⟩]⟩).particles[0]? =
      some ⟨0, 0, 0, 0, 1 / (2 * Real.pi) * (1 / (2 * Real.pi) * Real.exp (-1))⟩ := by
  have h := (updateWeights_unmatched (CMath.mk Real.sqrt Real.sin Real.cos Real.exp Real.pi)
    ⟨rfl, rfl, rfl, rfl, rfl⟩ ⟨1, true, [⟨0, 0, 0, 0, 1⟩], [1]⟩ 1 (fun _ => 1)
    [⟨5, 0, 0⟩, ⟨6, 1, 0⟩] ⟨[⟨1, 3, 4⟩]⟩ 0 ⟨0, 0, 0, 0, 1⟩ rfl
    (by norm_num [predict, predict_step, transform, dist]))
  rw [h]
  simp

/-! ## Initialisation, resampling and the states of a session -/

theorem resize_length {α : Type} (xs : List α) (n : Nat) (d : α) :
    (resize xs n d).length = n := by
  simp only [resize, List.length_append, List.length_take, List.length_replicate]
  omega

section Session

variable [LinearOrderedField K]

/-- The loop of `init` after `k` iterations: the first `k` particles and weights are
written, the rest untouched, and the engine has made `3k` draws. -/
theorem init_foldl (R : Random K G) (x y theta : K) (std : Nat → K)
    (ps : List (Particle K)) (ws : List K) (k : Nat) :
    ((List.range k).foldl (init_step R x y theta std) (ps, ws, R.seed)).2.2 =
      init_gen R x y theta std k ∧
    ((List.range k).foldl (init_step R x y theta std) (ps, ws, R.seed)).1.length =
      ps.length ∧
    ((List.range k).foldl (init_step R x y theta std) (ps, ws, R.seed)).2.1.length =
      ws.length ∧
    (∀ j, ((List.range k).foldl (init_step R x y theta std) (ps, ws, R.seed)).1[j]? =
      if j < k ∧ j < ps.length then some (init_particle R x y theta std j) else ps[j]?) ∧
    (∀ j, ((List.range k).foldl (init_step R x y theta std) (ps, ws, R.seed)).2.1[j]? =
      if j < k ∧ j < ws.length then some 1 else ws[j]?) := by
  induction k with
  | zero => simp [init_gen]
  | succ k ih =>
    obtain ⟨h0, h1, h2, h3, h4⟩ := ih
    rw [List.range_succ, List.foldl_append, List.foldl_cons, List.foldl_nil]
    generalize (List.range k).foldl (init_step R x y theta std) (ps, ws, R.seed) = st
      at h0 h1 h2 h3 h4
    simp only [init_step, h0]
    refine ⟨rfl, by simp [h1], by simp [h2], ?_, ?_⟩
    · intro j
      rw [List.getElem?_set, h1]
      by_cases hj : k = j
      · subst hj
        by_cases hl : k < ps.length
        · simp [hl, init_particle]
        · simp [hl, List.getElem?_eq_none (not_lt.mp hl)]
      · rw [if_neg hj, h3 j]
        by_cases hjk : j < k
        · simp [hjk, Nat.lt_succ_of_lt hjk]
        · have : ¬ j < k + 1 := by omega
          simp [hjk, this]
    · intro j
      rw [List.getElem?_set, h2]
      by_cases hj : k = j
      · subst hj
        by_cases hl : k < ws.length
        · simp [hl]
        · simp [hl, List.getElem?_eq_none (not_lt.mp hl)]
      · rw [if_neg hj, h4 j]
        by_cases hjk : j < k
        · simp [hjk, Nat.lt_succ_of_lt hjk]
        · have : ¬ j < k + 1 := by omega
          simp [hjk, this]

/-- The ensemble that `init` leaves: particle `i` is the one drawn in iteration `i`. -/
theorem init_particles (R : Random K G) (pf : ParticleFilter K) (x y theta : K)
    (std : Nat → K) :
    (init R pf x y theta std).particles =
      (List.range 100).map (init_particle R x y theta std) := by
  obtain ⟨-, -, -, h3, -⟩ := init_foldl R x y theta std
    (resize pf.particles 100 Particle.zero) (resize pf.weights 100 0) 100
  apply List.ext_getElem?
  intro j
  simp only [init]
  rw [h3 j, resize_length, List.getElem?_map]
  by_cases hj : j < 100
  · simp [hj, List.getElem?_range hj]
  · have hn : (List.range 100)[j]? = none :=
      List.getElem?_eq_none (by rw [List.length_range]; omega)
    rw [hn, List.getElem?_eq_none (by rw [resize_length]; omega)]
    simp [hj]

/-- The weight sequence that `init` leaves: one hundred entries 1. -/
theorem init_weights (R : Random K G) (pf : ParticleFilter K) (x y theta : K)
    (std : Nat → K) :
    (init R pf x y theta std).weights = List.replicate 100 1 := by
  obtain ⟨-, -, -, -, h4⟩ := init_foldl R x y theta std
    (resize pf.particles 100 Particle.zero) (resize pf.weights 100 0) 100
  apply List.ext_getElem?
  intro j
  simp only [init]
  rw [h4 j, resize_length, List.getElem?_replicate]
  by_cases hj : j < 100
  · simp [hj]
  · rw [List.getElem?_eq_none (by rw [resize_length]; omega)]
    simp [hj]

theorem init_num_particles (R : Random K G) (pf : ParticleFilter K) (x y theta : K)
    (std : Nat → K) : (init R pf x y theta std).num_particles = 100 := rfl

end Session

/-- A completed loop of `resample` has appended one particle per iteration. -/
theorem resample_loop_length (R : Random K G) (ws : List K) (ps : List (Particle K))
    (n : Nat) (g : G) (acc r : List (Particle K))
    (h : resample_loop R ws ps n g acc = some r) : r.length = acc.length + n := by
  induction n generalizing g acc with
  | zero =>
    simp only [resample_loop, Option.some.injEq] at h
    simp [← h]
  | succ n ih =>
    simp only [resample_loop] at h
    cases hp : ps[(R.discrete ws g).1]? with
    | none => simp [hp] at h
    | some p =>
      simp only [hp] at h
      rw [ih _ _ h]
      simp
      omega

/-- With in-range draws and at least as many particles as weights, the loop of `resample`
completes. -/
theorem resample_loop_isSome (R : Random K G) (hR : InRange R) (ws : List K)
    (ps : List (Particle K)) (hws : ws ≠ []) (hlen : ws.length ≤ ps.length)
    (n : Nat) (g : G) (acc : List (Particle K)) :
    (resample_loop R ws ps n g acc).isSome = true := by
  induction n generalizing g acc with
  | zero => rfl
  | succ n ih =>
    simp only [resample_loop]
    have hlt : (R.discrete ws g).1 < ps.length := lt_of_lt_of_le (hR ws g hws) hlen
    rw [List.getElem?_eq_getElem hlt]
    exact ih _ _

/-- When every draw returns the same valid index, the loop of `resample` appends copies of
the particle at that index. -/
theorem resample_loop_const (R : Random K G) (ws : List K) (ps : List (Particle K))
    (c : Nat) (p : Particle K) (hc : ∀ g, (R.discrete ws g).1 = c) (hp : ps[c]? = some p)
    (n : Nat) (g : G) (acc : List (Particle K)) :
    resample_loop R ws ps n g acc = some (acc ++ List.replicate n p) := by
  induction n generalizing g acc with
  | zero => simp [resample_loop]
  | succ n ih =>
    simp only [resample_loop, hc g, hp]
    rw [ih]
    simp [List.replicate_succ]

/-- C6. Ensemble size invariant: in every state reached by `init` followed by any sequence
of `prediction`, `updateWeights` and `resample` calls, the particle sequence and the weight
sequence have length 100 and `num_particles` is 100; with a sampler that returns in-range
indices, `resample` completes in every such state. -/
theorem ensemble_size [LinearOrderedField K] (M : CMath K) (R : Random K G) (hR : InRange R)
    (pf : ParticleFilter K) (h : Reachable M R pf) :
    pf.particles.length = 100 ∧ pf.weights.length = 100 ∧ pf.num_particles = 100 ∧
      (resample R pf).isSome = true := by
  have hinv : pf.particles.length = 100 ∧ pf.weights.length = 100 ∧
      pf.num_particles = 100 := by
    induction h with
    | init pf x y theta std =>
      rw [init_particles, init_weights]
      simp [init_num_particles]
    | prediction pf delta_t std_pos velocity yaw_rate _ ih =>
      simpa [prediction, prediction_loop_length] using ih
    | updateWeights pf sensor_range std_landmark observations map_landmarks _ ih =>
      obtain ⟨h1, h2, h3⟩ :=
        updateWeights_length M pf sensor_range std_landmark observations map_landmarks
      rw [h1, h2, h3]
      exact ih
    | resample pf pf2 _ hres ih =>
      unfold resample at hres
      cases hl : resample_loop R pf.weights pf.particles pf.num_particles R.seed [] with
      | none => simp [hl] at hres
      | some r =>
        simp only [hl, Option.map_some', Option.some.injEq] at hres
        have := resample_loop_length R _ _ _ _ _ _ hl
        subst hres
        simp only [List.length_nil, zero_add] at this
        exact ⟨by rw [this]; exact ih.2.2, ih.2.1, ih.2.2⟩
  refine ⟨hinv.1, hinv.2.1, hinv.2.2, ?_⟩
  unfold resample
  rw [Option.isSome_map']
  exact resample_loop_isSome R hR _ _ (by intro h0; rw [h0] at hinv; simp at hinv)
    (by rw [hinv.1, hinv.2.1]) _ _ _

/-- C6 at a session over the reals with the noise-free sampler: `init`, `prediction`,
`updateWeights` with one landmark and one observation. -/
theorem ensemble_size_witness :
    InRange (Random.noiseFree : Random ℝ Unit) ∧
    (updateWeights (CMath.mk Real.sqrt Real.sin Real.cos Real.exp Real.pi)
      (prediction (CMath.mk Real.sqrt Real.sin Real.cos Real.exp Real.pi) Random.noiseFree
        (init Random.noiseFree ⟨0, false, [], []⟩ 1 2 0 (fun _ => 1)) 1 (fun _ => 1) 10 0)
      50 (fun _ => 1) [⟨0, 1, 1⟩] ⟨[⟨1, 2, 3⟩]⟩).particles.length = 100 ∧
    (updateWeights (CMath.mk Real.sqrt Real.sin Real.cos Real.exp Real.pi)
      (prediction (CMath.mk Real.sqrt Real.sin Real.cos Real.exp Real.pi) Random.noiseFree
        (init Random.noiseFree ⟨0, false, [], []⟩ 1 2 0 (fun _ => 1)) 1 (fun _ => 1) 10 0)
      50 (fun _ => 1) [⟨0, 1, 1⟩] ⟨[⟨1, 2, 3⟩]⟩).weights.length = 100 := by
  have hR : InRange (Random.noiseFree : Random ℝ Unit) := by
    intro ws g hws
    exact List.length_pos.mpr hws
  have h := ensemble_size (CMath.mk Real.sqrt Real.sin Real.cos Real.exp Real.pi)
    Random.noiseFree hR _
    (Reachable.updateWeights _ 50 (fun _ => 1) [⟨0, 1, 1⟩] ⟨[⟨1, 2, 3⟩]⟩
      (Reachable.prediction _ 1 (fun _ => 1) 10 0
        (Reachable.init ⟨0, false, [], []⟩ 1 2 0 (fun _ => 1))))
  exact ⟨hR, h.1, h.2.1⟩

/-- C8, the code at a failing input: `init (0, 0, 0)` with the counting sampler (particle 0
at `(0, 1)`, particle 1 at `(3, 4)`), then `updateWeights` with sensor range 1,
`σx = σy = 1`, one landmark at the map origin and one observation at `(0, 0)`, then
`resample` with every draw returning index 0.  In the state reached, entry 1 of the weight
sequence is still `(1/(2π))·exp(−25)`, the weight computed for the old particle 1, while the
particle now at index 1 is a copy of the old particle 0 and has weight `(1/(2π))·exp(−1)`. -/
theorem resample_weights_stale :
    ∃ pf2 : ParticleFilter ℝ,
      resample Random.counting
        (updateWeights (CMath.mk Real.sqrt Real.sin Real.cos Real.exp Real.pi)
          (init Random.counting ⟨0, false, [], []⟩ 0 0 0 (fun _ => 1))
          1 (fun _ => 1) [⟨0, 0, 0⟩] ⟨[⟨1, 0, 0⟩]⟩) = some pf2 ∧
      Reachable (CMath.mk Real.sqrt Real.sin Real.cos Real.exp Real.pi) Random.counting pf2 ∧
      pf2.weights[1]? = some (1 / (2 * Real.pi) * Real.exp (-25)) ∧
      (pf2.particles[1]?).map (fun p => p.weight) =
        some (1 / (2 * Real.pi) * Real.exp (-1)) ∧
      1 / (2 * Real.pi) * Real.exp (-25) ≠ 1 / (2 * Real.pi) * Real.exp (-1) := by
  have hW : ∀ p : Particle ℝ,
      (particle_weight (CMath.mk Real.sqrt Real.sin Real.cos Real.exp Real.pi) 1 (fun _ => 1)
        [⟨0, 0, 0⟩] ⟨[⟨1, 0, 0⟩]⟩ p).1 =
        1 / (2 * Real.pi) * Real.exp (-(p.x ^ 2 + p.y ^ 2)) := by
    intro p
    rw [particle_weight_fst]
    simp [predict, predict_step, transform, dist, emplace, dataAssociation, nearest,
      nearest_step, lookup, new_weight, mul_comm]
  have hp0 : init_particle (Random.counting : Random ℝ ℝ) 0 0 0 (fun _ => 1) 0 =
      ⟨0, 0, 1, 2, 1⟩ := by
    simp only [init_particle, init_gen, Random.counting]
    norm_num
  have hp1 : init_particle (Random.counting : Random ℝ ℝ) 0 0 0 (fun _ => 1) 1 =
      ⟨1, 3, 4, 5, 1⟩ := by
    simp only [init_particle, init_gen, Random.counting]
    norm_num
  have hs0 : (updateWeights (CMath.mk Real.sqrt Real.sin Real.cos Real.exp Real.pi)
      (init Random.counting ⟨0, false, [], []⟩ 0 0 0 (fun _ => 1))
      1 (fun _ => 1) [⟨0, 0, 0⟩] ⟨[⟨1, 0, 0⟩]⟩).particles[0]? =
      some ⟨0, 0, 1, 2, 1 / (2 * Real.pi) * Real.exp (-1)⟩ := by
    rw [updateWeights_particles, init_particles, List.getElem?_map, List.getElem?_map,
      List.getElem?_range (by norm_num), Option.map_some', Option.map_some', hW, hp0]
    norm_num
  have hw1 : (updateWeights (CMath.mk Real.sqrt Real.sin Real.cos Real.exp Real.pi)
      (init Random.counting ⟨0, false, [], []⟩ 0 0 0 (fun _ => 1))
      1 (fun _ => 1) [⟨0, 0, 0⟩] ⟨[⟨1, 0, 0⟩]⟩).weights[1]? =
      some (1 / (2 * Real.pi) * Real.exp (-25)) := by
    rw [updateWeights_weights, init_particles, init_weights, List.getElem?_map,
      List.getElem?_range (by norm_num), List.getElem?_replicate]
    simp only [List.length_map, List.length_range, Option.map_some', hW, hp1]
    norm_num
  have hres := resample_loop_const (Random.counting : Random ℝ ℝ)
    (updateWeights (CMath.mk Real.sqrt Real.sin Real.cos Real.exp Real.pi)
      (init Random.counting ⟨0, false, [], []⟩ 0 0 0 (fun _ => 1))
      1 (fun _ => 1) [⟨0, 0, 0⟩] ⟨[⟨1, 0, 0⟩]⟩).weights _ 0 _ (fun _ => rfl) hs0 100 0 []
  have hnum : (updateWeights (CMath.mk Real.sqrt Real.sin Real.cos Real.exp Real.pi)
      (init Random.counting ⟨0, false, [], []⟩ 0 0 0 (fun _ => 1))
      1 (fun _ => 1) [⟨0, 0, 0⟩] ⟨[⟨1, 0, 0⟩]⟩).num_particles = 100 := rfl
  have hresample : resample Random.counting
      (updateWeights (CMath.mk Real.sqrt Real.sin Real.cos Real.exp Real.pi)
        (init Random.counting ⟨0, false, [], []⟩ 0 0 0 (fun _ => 1))
        1 (fun _ => 1) [⟨0, 0, 0⟩] ⟨[⟨1, 0, 0⟩]⟩) =
      some { updateWeights (CMath.mk Real.sqrt Real.sin Real.cos Real.exp Real.pi)
        (init Random.counting ⟨0, false, [], []⟩ 0 0 0 (fun _ => 1))
        1 (fun _ => 1) [⟨0, 0, 0⟩] ⟨[⟨1, 0, 0⟩]⟩ with
        particles := List.replicate 100 ⟨0, 0, 1, 2, 1 / (2 * Real.pi) * Real.exp (-1)⟩ } := by
    unfold resample
    rw [hnum]
    have hseed : (Random.counting : Random ℝ ℝ).seed = 0 := rfl
    rw [hseed, hres]
    simp [hnum]
  refine ⟨_, hresample, ?_, ?_, ?_, ?_⟩
  · exact Reachable.resample _ _
      (Reachable.updateWeights _ 1 (fun _ => 1) [⟨0, 0, 0⟩] ⟨[⟨1, 0, 0⟩]⟩
        (Reachable.init ⟨0, false, [], []⟩ 0 0 0 (fun _ => 1))) hresample
  · simp only [hw1]
  · simp [List.getElem?_replicate]
  · intro h
    have hpi : (1 / (2 * Real.pi) : ℝ) ≠ 0 := by
      have := Real.pi_pos
      positivity
    have h4 := Real.exp_injective (mul_left_cancel₀ hpi h)
    norm_num at h4

/-! ## Association: ties and the empty sighting list -/

/-- The inner loop of `dataAssociation` ends on the first sighting, in list order, that
attains the minimal distance. -/
theorem nearest_first [LinearOrderedField K] (M : CMath K) (o : LandmarkObs K)
    (l : List (LandmarkObs K)) (hl : l ≠ []) :
    ∃ l1 p l2, l = l1 ++ p :: l2 ∧
      (∀ q ∈ l1, dist M p.x p.y o.x o.y < dist M q.x q.y o.x o.y) ∧
      (∀ q ∈ l2, dist M p.x p.y o.x o.y ≤ dist M q.x q.y o.x o.y) ∧
      nearest M l o = (((dist M p.x p.y o.x o.y : K) : WithTop K), p.id) := by
  induction l using List.reverseRecOn with
  | nil => exact absurd rfl hl
  | append_singleton l a ih =>
    by_cases hnil : l = []
    · subst hnil
      refine ⟨[], a, [], rfl, by simp, by simp, ?_⟩
      simp [nearest, nearest_step]
    · obtain ⟨l1, p, l2, hdec, hbefore, hafter, hn⟩ := ih hnil
      have hfold : nearest M (l ++ [a]) o = nearest_step M o (nearest M l o) a := by
        simp [nearest, List.foldl_append]
      by_cases hlt : dist M a.x a.y o.x o.y < dist M p.x p.y o.x o.y
      · refine ⟨l, a, [], by simp, ?_, by simp, ?_⟩
        · intro q hq
          rw [hdec] at hq
          rcases List.mem_append.mp hq with hq | hq
          · exact lt_trans hlt (hbefore q hq)
          · rcases List.mem_cons.mp hq with rfl | hq
            · exact hlt
            · exact lt_of_lt_of_le hlt (hafter q hq)
        · rw [hfold, hn]
          simp [nearest_step, hlt]
      · refine ⟨l1, p, l2 ++ [a], by simp [hdec], hbefore, ?_, ?_⟩
        · intro q hq
          rcases List.mem_append.mp hq with hq | hq
          · exact hafter q hq
          · rw [List.mem_singleton.mp hq]
            exact not_lt.mp hlt
        · rw [hfold, hn]
          simp [nearest_step, hlt]

/-- C19. Association tie-break over the reals: for every non-empty list of predicted
sightings, `dataAssociation` keeps each observation's coordinates and gives it the id of the
first sighting in list order that attains the minimal Euclidean distance: every earlier
sighting is strictly farther, no later one is nearer. -/
theorem dataAssociation_first_nearest (M : CMath ℝ) (hM : M.sqrt = Real.sqrt)
    (predicted observations : List (LandmarkObs ℝ)) (h : predicted ≠ []) :
    List.Forall₂
      (fun (o r : LandmarkObs ℝ) => r.x = o.x ∧ r.y = o.y ∧
        ∃ l1 p l2, predicted = l1 ++ p :: l2 ∧ r.id = p.id ∧
          (∀ q ∈ l1, Real.sqrt ((o.x - p.x) ^ 2 + (o.y - p.y) ^ 2) <
            Real.sqrt ((o.x - q.x) ^ 2 + (o.y - q.y) ^ 2)) ∧
          (∀ q ∈ l2, Real.sqrt ((o.x - p.x) ^ 2 + (o.y - p.y) ^ 2) ≤
            Real.sqrt ((o.x - q.x) ^ 2 + (o.y - q.y) ^ 2)))
      observations (dataAssociation M predicted observations) := by
  unfold dataAssociation
  rw [List.forall₂_map_right_iff]
  apply List.forall₂_same.mpr
  intro o _
  obtain ⟨l1, p, l2, hdec, hbefore, hafter, hn⟩ := nearest_first M o predicted h
  refine ⟨rfl, rfl, l1, p, l2, hdec, by rw [hn], ?_, ?_⟩
  · intro q hq
    have := hbefore q hq
    simp only [dist, hM] at this
    simpa [sq] using this
  · intro q hq
    have := hafter q hq
    simp only [dist, hM] at this
    simpa [sq] using this

/-- C19 at a tie: sightings id 1 at `(1, 0)`, id 2 at `(0, 1)` and id 3 at `(-1, 0)` are all
at distance 1 from the observation `(0, 0)`; the observation is labelled 1. -/
theorem dataAssociation_first_nearest_witness :
    ([⟨1, 1, 0⟩, ⟨2, 0, 1⟩, ⟨3, -1, 0⟩] : List (LandmarkObs ℝ)) ≠ [] ∧
    dataAssociation (CMath.mk Real.sqrt Real.sin Real.cos Real.exp Real.pi)
      [⟨1, 1, 0⟩, ⟨2, 0, 1⟩, ⟨3, -1, 0⟩] [⟨7, 0, 0⟩] = [⟨1, 0, 0⟩] ∧
    List.Forall₂
      (fun (o r : LandmarkObs ℝ) => r.x = o.x ∧ r.y = o.y ∧
        ∃ l1 p l2, ([⟨1, 1, 0⟩, ⟨2, 0, 1⟩, ⟨3, -1, 0⟩] : List (LandmarkObs ℝ)) =
            l1 ++ p :: l2 ∧ r.id = p.id ∧
          (∀ q ∈ l1, Real.sqrt ((o.x - p.x) ^ 2 + (o.y - p.y) ^ 2) <
            Real.sqrt ((o.x - q.x) ^ 2 + (o.y - q.y) ^ 2)) ∧
          (∀ q ∈ l2, Real.sqrt ((o.x - p.x) ^ 2 + (o.y - p.y) ^ 2) ≤
            Real.sqrt ((o.x - q.x) ^ 2 + (o.y - q.y) ^ 2)))
      [⟨7, 0, 0⟩]
      (dataAssociation (CMath.mk Real.sqrt Real.sin Real.cos Real.exp Real.pi)
        [⟨1, 1, 0⟩, ⟨2, 0, 1⟩, ⟨3, -1, 0⟩] [⟨7, 0, 0⟩]) := by
  refine ⟨by simp, ?_, dataAssociation_first_nearest _ rfl _ _ (by simp)⟩
  simp [dataAssociation, nearest, nearest_step, dist]

/-- C20. Association with no predicted sightings: `dataAssociation` called with an empty
predicted list sets every observation's id to 0, whatever it was, and leaves the number of
observations and every observation's coordinates unchanged. -/
theorem dataAssociation_no_sightings [LinearOrderedField K] (M : CMath K)
    (observations : List (LandmarkObs K)) :
    dataAssociation M [] observations =
      observations.map (fun o => { id := 0, x := o.x, y := o.y }) ∧
    (dataAssociation M [] observations).length = observations.length := by
  constructor
  · simp [dataAssociation, nearest_nil]
  · simp [dataAssociation]

/-! ## Initial weights -/

/-- C13. Initial weights: after `init`, whatever the Gaussian draws return, the weight
fields of the particles are one hundred entries 1 and so is the weight sequence. -/
theorem init_weights_one [LinearOrderedField K] (R : Random K G) (pf : ParticleFilter K)
    (x y theta : K) (std : Nat → K) :
    (init R pf x y theta std).particles.map (fun p => p.weight) = List.replicate 100 1 ∧
    (init R pf x y theta std).weights = List.replicate 100 1 := by
  refine ⟨?_, init_weights R pf x y theta std⟩
  rw [init_particles, List.map_map]
  apply List.ext_getElem?
  intro j
  rw [List.getElem?_map, List.getElem?_replicate]
  by_cases hj : j < 100
  · rw [List.getElem?_range hj, if_pos hj]
    rfl
  · rw [List.getElem?_eq_none (by rw [List.length_range]; omega), if_neg hj]
    rfl

/-! ## The range test and the kinematics of the curved branch -/

/-- The squared distance between a particle and a landmark transformed into its frame is
the squared norm of the landmark. -/
theorem transform_dist_sq (px py θ lx ly : ℝ) :
    (px - (lx * Real.cos θ - ly * Real.sin θ + px)) ^ 2 +
      (py - (lx * Real.sin θ + ly * Real.cos θ + py)) ^ 2 = lx ^ 2 + ly ^ 2 := by
  have h := Real.sin_sq_add_cos_sq θ
  linear_combination (lx ^ 2 + ly ^ 2) * h

/-- C18. The sensor-range filter of `updateWeights` does not depend on the particle (over
the reals): for every particle the predicted sightings are, in map order, the transformed
landmarks `(lx, ly)` with `sqrt (lx² + ly²) ≤ sensor_range`; hence any two particles get the
same list of predicted landmark ids. -/
theorem range_filter_particle_independent (sensor_range : ℝ) (p p2 : Particle ℝ)
    (map_landmarks : Map ℝ) :
    (predict (CMath.mk Real.sqrt Real.sin Real.cos Real.exp Real.pi) sensor_range p
        map_landmarks).1 =
      (map_landmarks.landmark_list.filter (fun lm =>
        decide (Real.sqrt (lm.x_f ^ 2 + lm.y_f ^ 2) ≤ sensor_range))).map
        (fun lm =>
          { id := lm.id_i
            x := lm.x_f * Real.cos p.theta - lm.y_f * Real.sin p.theta + p.x
            y := lm.x_f * Real.sin p.theta + lm.y_f * Real.cos p.theta + p.y }) ∧
    (predict (CMath.mk Real.sqrt Real.sin Real.cos Real.exp Real.pi) sensor_range p
        map_landmarks).1.map (fun s => s.id) =
      (predict (CMath.mk Real.sqrt Real.sin Real.cos Real.exp Real.pi) sensor_range p2
        map_landmarks).1.map (fun s => s.id) := by
  have key : ∀ q : Particle ℝ,
      (predict (CMath.mk Real.sqrt Real.sin Real.cos Real.exp Real.pi) sensor_range q
        map_landmarks).1 =
      (map_landmarks.landmark_list.filter (fun lm =>
        decide (Real.sqrt (lm.x_f ^ 2 + lm.y_f ^ 2) ≤ sensor_range))).map
        (fun lm =>
          { id := lm.id_i
            x := lm.x_f * Real.cos q.theta - lm.y_f * Real.sin q.theta + q.x
            y := lm.x_f * Real.sin q.theta + lm.y_f * Real.cos q.theta + q.y }) := by
    intro q
    rw [predicted_sightings_eq]
    congr 2
    funext lm
    rw [transform_dist_sq]
  refine ⟨key p, ?_⟩
  rw [key p, key p2]
  simp [List.map_map, Function.comp_def]

/-- C14. Closed-form curved motion follows the unicycle kinematics (over the reals): for
`|ω|` at or above the threshold the means computed by `prediction` equal the current pose
at `Δt = 0` and, as functions of `Δt`, have derivatives `v·cos θ'`, `v·sin θ'` and `ω`, where
`θ'` is the mean heading at `Δt`. -/
theorem curved_motion_kinematics (M : CMath ℝ) (hM : M.IsReal) (p : Particle ℝ) (v ω : ℝ)
    (hω : 1 / 10000000 ≤ |ω|) :
    new_x_mean M p 0 v ω = p.x ∧ new_y_mean M p 0 v ω = p.y ∧ new_theta_mean p 0 ω = p.theta ∧
    ∀ t : ℝ,
      HasDerivAt (fun s => new_x_mean M p s v ω) (v * Real.cos (new_theta_mean p t ω)) t ∧
      HasDerivAt (fun s => new_y_mean M p s v ω) (v * Real.sin (new_theta_mean p t ω)) t ∧
      HasDerivAt (fun s => new_theta_mean p s ω) ω t := by
  obtain ⟨-, hsin, hcos, -, -⟩ := hM
  have hne : ω ≠ 0 := by
    intro h0
    rw [h0, abs_zero] at hω
    norm_num at hω
  have hbranch : ¬ |ω| < 1 / 10000000 := not_lt.mpr hω
  refine ⟨?_, ?_, ?_, ?_⟩
  · simp [new_x_mean, hbranch]
  · simp [new_y_mean, hbranch]
  · simp [new_theta_mean]
  · intro t
    have hθ : HasDerivAt (fun s : ℝ => p.theta + ω * s) ω t := by
      simpa using ((hasDerivAt_id t).const_mul ω).const_add p.theta
    refine ⟨?_, ?_, hθ⟩
    · have h1 := ((hθ.sin.sub_const (Real.sin p.theta)).const_mul (v / ω)).const_add p.x
      simp only [new_x_mean, new_theta_mean, if_neg hbranch, hsin]
      refine h1.congr_deriv ?_
      field_simp
      ring
    · have h1 := ((hθ.cos.const_sub (Real.cos p.theta)).const_mul (v / ω)).const_add p.y
      simp only [new_y_mean, new_theta_mean, if_neg hbranch, hcos]
      refine h1.congr_deriv ?_
      field_simp
      ring

/-- C14 at the spec's example: `v = 10`, `ω = π/8`, heading 0, read at `Δt = 1`. -/
theorem curved_motion_kinematics_witness :
    (1 / 10000000 : ℝ) ≤ |Real.pi / 8| ∧
    HasDerivAt
      (fun s => new_x_mean (CMath.mk Real.sqrt Real.sin Real.cos Real.exp Real.pi)
        ⟨0, 0, 0, 0, 1⟩ s 10 (Real.pi / 8))
      (10 * Real.cos (new_theta_mean ⟨0, 0, 0, 0, 1⟩ 1 (Real.pi / 8))) 1 ∧
    HasDerivAt
      (fun s => new_y_mean (CMath.mk Real.sqrt Real.sin Real.cos Real.exp Real.pi)
        ⟨0, 0, 0, 0, 1⟩ s 10 (Real.pi / 8))
      (10 * Real.sin (new_theta_mean ⟨0, 0, 0, 0, 1⟩ 1 (Real.pi / 8))) 1 ∧
    HasDerivAt (fun s => new_theta_mean ⟨0, 0, 0, 0, (1 : ℝ)⟩ s (Real.pi / 8))
      (Real.pi / 8) 1 := by
  have hω : (1 / 10000000 : ℝ) ≤ |Real.pi / 8| := by
    have := Real.pi_gt_three
    rw [abs_of_pos (by positivity)]
    linarith
  exact ⟨hω, (curved_motion_kinematics _ ⟨rfl, rfl, rfl, rfl, rfl⟩ ⟨0, 0, 0, 0, 1⟩ 10
    (Real.pi / 8) hω).2.2.2 1⟩

/-! ## Resampling copies particles -/

/-- A completed loop of `resample` has appended, in order, the particles found at the drawn
indices. -/
theorem resample_loop_spec (R : Random K G) (ws : List K) (ps : List (Particle K))
    (n : Nat) (g : G) (acc r : List (Particle K))
    (h : resample_loop R ws ps n g acc = some r) :
    ∃ r2, r = acc ++ r2 ∧
      List.Forall₂ (fun i p => ps[i]? = some p) (resample_indices R ws n g) r2 := by
  induction n generalizing g acc with
  | zero =>
    simp only [resample_loop, Option.some.injEq] at h
    exact ⟨[], by simp [h], by simp [resample_indices]⟩
  | succ n ih =>
    simp only [resample_loop] at h
    cases hp : ps[(R.discrete ws g).1]? with
    | none => simp [hp] at h
    | some p =>
      simp only [hp] at h
      obtain ⟨r2, hr, hf⟩ := ih _ _ h
      refine ⟨p :: r2, by simp [hr], ?_⟩
      simp only [resample_indices]
      exact List.Forall₂.cons hp hf

/-- Every particle related to a drawn index is a particle of the old ensemble. -/
theorem mem_of_drawn (ps : List (Particle K)) (is : List Nat)
    (r : List (Particle K)) (h : List.Forall₂ (fun i p => ps[i]? = some p) is r) :
    ∀ p ∈ r, p ∈ ps := by
  induction h with
  | nil => simp
  | cons hab _ ih =>
    intro p hp
    rcases List.mem_cons.mp hp with rfl | hp
    · exact List.mem_iff_getElem?.mpr ⟨_, hab⟩
    · exact ih p hp

/-- What a completed `resample` leaves: the new ensemble has `num_particles` particles, the
`k`-th being the old particle at the `k`-th drawn index; nothing else changes. -/
theorem resample_spec (R : Random K G) (pf pf2 : ParticleFilter K)
    (h : resample R pf = some pf2) :
    pf2.weights = pf.weights ∧ pf2.num_particles = pf.num_particles ∧
    pf2.is_initialized = pf.is_initialized ∧ pf2.particles.length = pf.num_particles ∧
    List.Forall₂ (fun i p => pf.particles[i]? = some p)
      (resample_indices R pf.weights pf.num_particles R.seed) pf2.particles ∧
    ∀ p ∈ pf2.particles, p ∈ pf.particles := by
  unfold resample at h
  cases hl : resample_loop R pf.weights pf.particles pf.num_particles R.seed [] with
  | none => simp [hl] at h
  | some r =>
    simp only [hl, Option.map_some', Option.some.injEq] at h
    obtain ⟨r2, hr, hf⟩ := resample_loop_spec R _ _ _ _ _ _ hl
    have hlen := resample_loop_length R _ _ _ _ _ _ hl
    simp only [List.nil_append] at hr
    subst hr
    subst h
    exact ⟨rfl, rfl, rfl, by simpa using hlen, hf, mem_of_drawn _ _ _ hf⟩

/-- The sizes in a reachable state. -/
theorem reachable_lengths [LinearOrderedField K] (M : CMath K) (R : Random K G)
    (pf : ParticleFilter K) (h : Reachable M R pf) :
    pf.particles.length = 100 ∧ pf.weights.length = 100 ∧ pf.num_particles = 100 := by
  induction h with
  | init pf x y theta std =>
    rw [init_particles, init_weights]
    simp [init_num_particles]
  | prediction pf delta_t std_pos velocity yaw_rate _ ih =>
    simpa [prediction, prediction_loop_length] using ih
  | updateWeights pf sensor_range std_landmark observations map_landmarks _ ih =>
    obtain ⟨h1, h2, h3⟩ :=
      updateWeights_length M pf sensor_range std_landmark observations map_landmarks
    rw [h1, h2, h3]
    exact ih
  | resample pf pf2 _ hres ih =>
    obtain ⟨hw, hn, -, hl, -, -⟩ := resample_spec R pf pf2 hres
    rw [hw, hn, hl]
    exact ⟨ih.2.2, ih.2.1, ih.2.2⟩

/-- C12. Resampling selects existing particles: in every state reached from `init`, with a
sampler that returns in-range indices, `resample` completes; the new ensemble has
`num_particles` particles, the `k`-th is the old particle (id, x, y, heading, weight) at the
`k`-th drawn index, so every new particle is a particle of the old ensemble; weights, count
and flag are unchanged. -/
theorem resample_copies [LinearOrderedField K] (M : CMath K) (R : Random K G)
    (hR : InRange R) (pf : ParticleFilter K) (h : Reachable M R pf) :
    ∃ pf2, resample R pf = some pf2 ∧
      pf2.weights = pf.weights ∧ pf2.num_particles = pf.num_particles ∧
      pf2.is_initialized = pf.is_initialized ∧ pf2.particles.length = pf.num_particles ∧
      List.Forall₂ (fun i p => pf.particles[i]? = some p)
        (resample_indices R pf.weights pf.num_particles R.seed) pf2.particles ∧
      ∀ p ∈ pf2.particles, p ∈ pf.particles := by
  obtain ⟨hp, hw, -⟩ := reachable_lengths M R pf h
  have hsome : (resample R pf).isSome = true := by
    unfold resample
    rw [Option.isSome_map']
    exact resample_loop_isSome R hR _ _ (by intro h0; rw [h0] at hw; simp at hw)
      (by rw [hp, hw]) _ _ _
  obtain ⟨pf2, hpf2⟩ := Option.isSome_iff_exists.mp hsome
  exact ⟨pf2, hpf2, resample_spec R pf pf2 hpf2⟩

/-- C12 at the state that `init` leaves with the noise-free sampler over the reals. -/
theorem resample_copies_witness :
    InRange (Random.noiseFree : Random ℝ Unit) ∧
    ∃ pf2, resample Random.noiseFree
        (init (Random.noiseFree : Random ℝ Unit) ParticleFilter.fresh 1 2 0 (fun _ => 1)) =
          some pf2 ∧
      pf2.weights = (init (Random.noiseFree : Random ℝ Unit) ParticleFilter.fresh 1 2 0
        (fun _ => 1)).weights ∧
      pf2.num_particles = (init (Random.noiseFree : Random ℝ Unit) ParticleFilter.fresh 1 2 0
        (fun _ => 1)).num_particles ∧
      pf2.is_initialized = (init (Random.noiseFree : Random ℝ Unit) ParticleFilter.fresh 1 2 0
        (fun _ => 1)).is_initialized ∧
      pf2.particles.length = (init (Random.noiseFree : Random ℝ Unit) ParticleFilter.fresh
        1 2 0 (fun _ => 1)).num_particles ∧
      List.Forall₂
        (fun i p => (init (Random.noiseFree : Random ℝ Unit) ParticleFilter.fresh 1 2 0
          (fun _ => 1)).particles[i]? = some p)
        (resample_indices Random.noiseFree
          (init (Random.noiseFree : Random ℝ Unit) ParticleFilter.fresh 1 2 0
            (fun _ => 1)).weights
          (init (Random.noiseFree : Random ℝ Unit) ParticleFilter.fresh 1 2 0
            (fun _ => 1)).num_particles
          (Random.noiseFree : Random ℝ Unit).seed) pf2.particles ∧
      ∀ p ∈ pf2.particles, p ∈ (init (Random.noiseFree : Random ℝ Unit) ParticleFilter.fresh
        1 2 0 (fun _ => 1)).particles := by
  have hR : InRange (Random.noiseFree : Random ℝ Unit) := by
    intro ws g hws
    exact List.length_pos.mpr hws
  exact ⟨hR, resample_copies (CMath.mk Real.sqrt Real.sin Real.cos Real.exp Real.pi)
    Random.noiseFree hR _ (Reachable.init ParticleFilter.fresh 1 2 0 (fun _ => 1))⟩

/-! ## Weights are never negative -/

/-- With positive sensor deviations the weight computed for a particle is not negative
(over the reals). -/
theorem particle_weight_nonneg (M : CMath ℝ) (hM : M.IsReal) (sensor_range : ℝ)
    (std_landmark : Nat → ℝ) (hσx : 0 < std_landmark 0) (hσy : 0 < std_landmark 1)
    (obs : List (LandmarkObs ℝ)) (map_landmarks : Map ℝ) (p : Particle ℝ) :
    0 ≤ (particle_weight M sensor_range std_landmark obs map_landmarks p).1 := by
  obtain ⟨-, -, -, hexp, hpi⟩ := hM
  rw [particle_weight_fst]
  apply List.prod_nonneg
  intro a ha
  obtain ⟨o, -, rfl⟩ := List.mem_map.mp ha
  simp only [new_weight, hexp, hpi]
  have := Real.pi_pos
  have := Real.exp_pos (-1 * ((o.x - (lookup (predict M sensor_range p map_landmarks).2
    o.id).1.x) ^ 2 / std_landmark 0 ^ 2 + (o.y - (lookup (predict M sensor_range p
    map_landmarks).2 o.id).1.y) ^ 2 / std_landmark 1 ^ 2))
  positivity

/-- C11. Weight non-negativity over the reals: in every state reached by `init` followed by
any sequence of `prediction`, `updateWeights` (each with `σx > 0` and `σy > 0`) and
`resample` calls, every particle's weight field and every entry of the weight sequence is
at least 0. -/
theorem weights_nonneg (M : CMath ℝ) (hM : M.IsReal) (R : Random ℝ G)
    (pf : ParticleFilter ℝ) (h : ReachablePos M R pf) :
    (∀ p ∈ pf.particles, 0 ≤ p.weight) ∧ (∀ w ∈ pf.weights, 0 ≤ w) := by
  induction h with
  | init pf x y theta std =>
    constructor
    · intro p hp
      rw [init_particles] at hp
      obtain ⟨i, -, rfl⟩ := List.mem_map.mp hp
      simp [init_particle]
    · intro w hw
      rw [init_weights] at hw
      rw [(List.mem_replicate.mp hw).2]
      exact zero_le_one
  | prediction pf delta_t std_pos velocity yaw_rate _ ih =>
    refine ⟨?_, ih.2⟩
    intro p hp
    have hmem : p.weight ∈ (prediction M R pf delta_t std_pos velocity yaw_rate).particles.map
        (fun p => p.weight) := List.mem_map_of_mem _ hp
    simp only [prediction, prediction_loop_weight] at hmem
    obtain ⟨q, hq, hqw⟩ := List.mem_map.mp hmem
    rw [← hqw]
    exact ih.1 q hq
  | updateWeights pf sensor_range std_landmark observations map_landmarks hσx hσy _ ih =>
    constructor
    · intro p hp
      rw [updateWeights_particles] at hp
      obtain ⟨q, -, rfl⟩ := List.mem_map.mp hp
      exact particle_weight_nonneg M hM sensor_range std_landmark hσx hσy observations
        map_landmarks q
    · intro w hw
      obtain ⟨j, hj⟩ := List.mem_iff_getElem?.mp hw
      rw [updateWeights_weights] at hj
      by_cases hlt : j < pf.particles.length
      · rw [if_pos hlt, List.getElem?_eq_getElem hlt] at hj
        cases hwj : pf.weights[j]? with
        | none => simp [hwj] at hj
        | some w0 =>
          simp only [hwj, Option.some_bind, Option.map_some', Option.some.injEq] at hj
          rw [← hj]
          exact particle_weight_nonneg M hM sensor_range std_landmark hσx hσy observations
            map_landmarks _
      · rw [if_neg hlt] at hj
        exact ih.2 w (List.mem_iff_getElem?.mpr ⟨j, hj⟩)
  | resample pf pf2 _ hres ih =>
    obtain ⟨hw, -, -, -, -, hmem⟩ := resample_spec R pf pf2 hres
    refine ⟨fun p hp => ih.1 p (hmem p hp), ?_⟩
    rw [hw]
    exact ih.2

/-- C11 at a session with the noise-free sampler: `init`, `prediction`, `updateWeights`
with `σx = σy = 0.3`, one landmark and one observation. -/
theorem weights_nonneg_witness :
    (∀ p ∈ (updateWeights (CMath.mk Real.sqrt Real.sin Real.cos Real.exp Real.pi)
      (prediction (CMath.mk Real.sqrt Real.sin Real.cos Real.exp Real.pi) Random.noiseFree
        (init Random.noiseFree ParticleFilter.fresh 1 2 0 (fun _ => 1)) 1 (fun _ => 1) 10 0)
      50 (fun _ => 3 / 10) [⟨0, 1, 1⟩] ⟨[⟨1, 2, 3⟩]⟩).particles, 0 ≤ p.weight) ∧
    (∀ w ∈ (updateWeights (CMath.mk Real.sqrt Real.sin Real.cos Real.exp Real.pi)
      (prediction (CMath.mk Real.sqrt Real.sin Real.cos Real.exp Real.pi) Random.noiseFree
        (init Random.noiseFree ParticleFilter.fresh 1 2 0 (fun _ => 1)) 1 (fun _ => 1) 10 0)
      50 (fun _ => 3 / 10) [⟨0, 1, 1⟩] ⟨[⟨1, 2, 3⟩]⟩).weights, 0 ≤ w) :=
  weights_nonneg (CMath.mk Real.sqrt Real.sin Real.cos Real.exp Real.pi)
    ⟨rfl, rfl, rfl, rfl, rfl⟩ Random.noiseFree _
    (ReachablePos.updateWeights _ 50 (fun _ => 3 / 10) [⟨0, 1, 1⟩] ⟨[⟨1, 2, 3⟩]⟩
      (by norm_num) (by norm_num)
      (ReachablePos.prediction _ 1 (fun _ => 1) 10 0
        (ReachablePos.init ParticleFilter.fresh 1 2 0 (fun _ => 1))))

/-! ## Use before initialisation and all-zero weights -/

/-- C15, as the claim states it, fails: on a filter on which `init` has not been called,
`prediction`, `updateWeights` and `resample` all return normally and leave the filter as it
was; none reports an error. -/
theorem uninitialized_use_counterexample :
    (ParticleFilter.fresh : ParticleFilter ℝ).is_initialized = false ∧
    prediction (CMath.mk Real.sqrt Real.sin Real.cos Real.exp Real.pi) Random.noiseFree
      ParticleFilter.fresh 1 (fun _ => 1) 10 0 = ParticleFilter.fresh ∧
    updateWeights (CMath.mk Real.sqrt Real.sin Real.cos Real.exp Real.pi)
      ParticleFilter.fresh 50 (fun _ => 1) [⟨0, 1, 1⟩] ⟨[⟨1, 2, 3⟩]⟩ = ParticleFilter.fresh ∧
    resample (Random.noiseFree : Random ℝ Unit) ParticleFilter.fresh =
      some ParticleFilter.fresh := by
  refine ⟨rfl, rfl, rfl, rfl⟩

/-- C15 as amended. `prediction`, `updateWeights` and `resample` do not test the
initialisation flag: on a filter without particles, as before `init`, `prediction` and
`updateWeights` return normally and leave the filter as it was, and so does `resample` when
the particle count is 0. -/
theorem uninitialized_use [LinearOrderedField K] (M : CMath K) (R : Random K G)
    (pf : ParticleFilter K) (hps : pf.particles = []) (hn : pf.num_particles = 0)
    (delta_t velocity yaw_rate sensor_range : K) (std_pos std_landmark : Nat → K)
    (observations : List (LandmarkObs K)) (map_landmarks : Map K) :
    prediction M R pf delta_t std_pos velocity yaw_rate = pf ∧
    updateWeights M pf sensor_range std_landmark observations map_landmarks = pf ∧
    resample R pf = some pf := by
  cases pf with
  | mk n flag ps ws =>
    simp only at hps hn
    subst hps
    subst hn
    exact ⟨rfl, rfl, rfl⟩

/-- C15 as amended, at the filter before `init`. -/
theorem uninitialized_use_witness :
    (ParticleFilter.fresh : ParticleFilter ℝ).particles = [] ∧
    (ParticleFilter.fresh : ParticleFilter ℝ).num_particles = 0 ∧
    prediction (CMath.mk Real.sqrt Real.sin Real.cos Real.exp Real.pi) Random.noiseFree
      ParticleFilter.fresh 1 (fun _ => 1) 10 (1 / 2) = ParticleFilter.fresh ∧
    updateWeights (CMath.mk Real.sqrt Real.sin Real.cos Real.exp Real.pi)
      ParticleFilter.fresh 50 (fun _ => 1) [⟨0, 1, 1⟩] ⟨[⟨1, 2, 3⟩]⟩ = ParticleFilter.fresh ∧
    resample (Random.noiseFree : Random ℝ Unit) ParticleFilter.fresh =
      some ParticleFilter.fresh :=
  ⟨rfl, rfl, uninitialized_use (CMath.mk Real.sqrt Real.sin Real.cos Real.exp Real.pi)
    Random.noiseFree ParticleFilter.fresh rfl rfl 1 10 (1 / 2) 50 (fun _ => 1) (fun _ => 1)
    [⟨0, 1, 1⟩] ⟨[⟨1, 2, 3⟩]⟩⟩

/-- The samplers `Random.onZeroSum` return a valid index for every non-empty weight
sequence over the reals. -/
theorem onZeroSum_inRange (last : Bool) : InRange (Random.onZeroSum last : Random ℝ Unit) := by
  intro ws g hws
  have hpos : 0 < ws.length := List.length_pos.mpr hws
  by_cases hsum : 0 < ws.sum
  · simp only [Random.onZeroSum, if_pos hsum]
    apply List.findIdx_lt_length_of_exists
    by_contra hno
    have hall : ∀ w ∈ ws, w ≤ 0 := by
      intro w hw
      by_contra hgt
      exact hno ⟨w, hw, by simpa using hgt⟩
    have hle : ∀ l : List ℝ, (∀ w ∈ l, w ≤ 0) → l.sum ≤ 0 := by
      intro l
      induction l with
      | nil => simp
      | cons a l ih =>
        intro h
        rw [List.sum_cons]
        have h1 := h a (List.mem_cons_self _ _)
        have h2 := ih (fun w hw => h w (List.mem_cons_of_mem _ hw))
        linarith
    exact absurd (hle ws hall) (not_le.mpr hsum)
  · simp only [Random.onZeroSum, if_neg hsum]
    cases last with
    | false => simpa using hpos
    | true =>
      simp only [if_true]
      omega

/-- C16, as the claim states it, fails: `resample` defines no fallback, its result on
all-zero weights is whatever the sampler answers for them.  Take the filter with the flag
set, 100 particles (particle `i` at `x = i`) and 100 zero weights, and the two samplers
`Random.onZeroSum`, which return valid indices, agree on every weight sequence of positive
sum and differ only in the index they return for a zero sum (0, or the last one).  With
the first `resample` yields 100 copies of particle 0, with the second 100 copies of
particle 99. -/
theorem resample_zero_weights_counterexample :
    InRange (Random.onZeroSum false : Random ℝ Unit) ∧
    InRange (Random.onZeroSum true : Random ℝ Unit) ∧
    (∀ (ws : List ℝ) (g : Unit), 0 < ws.sum →
      (Random.onZeroSum false : Random ℝ Unit).discrete ws g =
        (Random.onZeroSum true : Random ℝ Unit).discrete ws g) ∧
    resample (Random.onZeroSum false : Random ℝ Unit)
      ⟨100, true, (List.range 100).map (fun (i : Nat) => ⟨(i : Int), (i : ℝ), 0, 0, 0⟩),
        List.replicate 100 0⟩ =
      some ⟨100, true, List.replicate 100 ⟨0, 0, 0, 0, 0⟩, List.replicate 100 0⟩ ∧
    resample (Random.onZeroSum true : Random ℝ Unit)
      ⟨100, true, (List.range 100).map (fun (i : Nat) => ⟨(i : Int), (i : ℝ), 0, 0, 0⟩),
        List.replicate 100 0⟩ =
      some ⟨100, true, List.replicate 100 ⟨99, 99, 0, 0, 0⟩, List.replicate 100 0⟩ ∧
    (List.replicate 100 (⟨0, 0, 0, 0, 0⟩ : Particle ℝ)) ≠
      List.replicate 100 ⟨99, 99, 0, 0, 0⟩ := by
  have hsum : ¬ (0 : ℝ) < (List.replicate 100 (0 : ℝ)).sum := by simp
  have hp0 : ((List.range 100).map
      (fun (i : Nat) => (⟨(i : Int), (i : ℝ), 0, 0, 0⟩ : Particle ℝ)))[0]? =
      some ⟨0, 0, 0, 0, 0⟩ := by
    rw [List.getElem?_map, List.getElem?_range (by norm_num)]
    simp
  have hp99 : ((List.range 100).map
      (fun (i : Nat) => (⟨(i : Int), (i : ℝ), 0, 0, 0⟩ : Particle ℝ)))[99]? =
      some ⟨99, 99, 0, 0, 0⟩ := by
    rw [List.getElem?_map, List.getElem?_range (by norm_num)]
    simp
  have h0 := resample_loop_const (Random.onZeroSum false : Random ℝ Unit)
    (List.replicate 100 0) _ 0 _
    (fun _ => by simp only [Random.onZeroSum, if_neg hsum]; rfl) hp0 100 () []
  have h99 := resample_loop_const (Random.onZeroSum true : Random ℝ Unit)
    (List.replicate 100 0) _ 99 _
    (fun _ => by simp only [Random.onZeroSum, if_neg hsum, List.length_replicate]; rfl)
    hp99 100 () []
  refine ⟨onZeroSum_inRange false, onZeroSum_inRange true, ?_, ?_, ?_, ?_⟩
  · intro ws g hpos
    simp only [Random.onZeroSum, if_pos hpos]
  · simp only [resample]
    have hseed : (Random.onZeroSum false : Random ℝ Unit).seed = () := rfl
    rw [hseed, h0]
    simp
  · simp only [resample]
    have hseed : (Random.onZeroSum true : Random ℝ Unit).seed = () := rfl
    rw [hseed, h99]
    simp
  · intro h
    have hlen : 0 < 100 := by norm_num
    have := (List.replicate_right_inj (Nat.pos_iff_ne_zero.mp hlen)).mp h
    simp at this

/-- C16 as amended. `resample` has no fallback of its own for all-zero weights: it hands
them to the sampler like any other weights.  For a filter with at least one particle whose
weight sequence is one zero per particle, and a sampler that returns in-range indices,
`resample` completes with `num_particles` particles, the `k`-th being the old particle at
the `k`-th index the sampler draws for the zero weights, and leaves the weights unchanged. -/
theorem resample_zero_weights [LinearOrderedField K] (R : Random K G) (hR : InRange R)
    (pf : ParticleFilter K) (hne : pf.particles ≠ [])
    (hzero : pf.weights = List.replicate pf.particles.length 0) :
    ∃ pf2, resample R pf = some pf2 ∧
      pf2.weights = List.replicate pf.particles.length 0 ∧
      pf2.particles.length = pf.num_particles ∧
      List.Forall₂ (fun i p => pf.particles[i]? = some p)
        (resample_indices R (List.replicate pf.particles.length 0) pf.num_particles R.seed)
        pf2.particles ∧
      ∀ p ∈ pf2.particles, p ∈ pf.particles := by
  have hpos : 0 < pf.particles.length := List.length_pos.mpr hne
  have hwlen : pf.weights.length = pf.particles.length := by
    rw [hzero, List.length_replicate]
  have hwne : pf.weights ≠ [] := by
    intro h0
    rw [h0, List.length_nil] at hwlen
    omega
  have hlen : pf.weights.length ≤ pf.particles.length := le_of_eq hwlen
  have hsome : (resample R pf).isSome = true := by
    unfold resample
    rw [Option.isSome_map']
    exact resample_loop_isSome R hR _ _ hwne hlen _ _ _
  obtain ⟨pf2, hpf2⟩ := Option.isSome_iff_exists.mp hsome
  obtain ⟨hw, -, -, hl, hf, hmem⟩ := resample_spec R pf pf2 hpf2
  rw [hzero] at hw hf
  exact ⟨pf2, hpf2, hw, hl, hf, hmem⟩

/-- C16 as amended, at three particles with zero weights and the sampler that returns
index 0 for a zero sum: the new ensemble is three copies of the old particle 0. -/
theorem resample_zero_weights_witness :
    InRange (Random.onZeroSum false : Random ℝ Unit) ∧
    ∃ pf2, resample (Random.onZeroSum false : Random ℝ Unit)
        ⟨3, true, [⟨0, 1, 1, 0, 0⟩, ⟨1, 2, 2, 0, 0⟩, ⟨2, 3, 3, 0, 0⟩], [0, 0, 0]⟩ = some pf2 ∧
      pf2.weights = List.replicate 3 0 ∧ pf2.particles.length = 3 ∧
      List.Forall₂
        (fun i p => ([⟨0, 1, 1, 0, 0⟩, ⟨1, 2, 2, 0, 0⟩, ⟨2, 3, 3, 0, 0⟩] :
          List (Particle ℝ))[i]? = some p)
        (resample_indices (Random.onZeroSum false : Random ℝ Unit) (List.replicate 3 0) 3 ())
        pf2.particles ∧
      ∀ p ∈ pf2.particles,
        p ∈ ([⟨0, 1, 1, 0, 0⟩, ⟨1, 2, 2, 0, 0⟩, ⟨2, 3, 3, 0, 0⟩] : List (Particle ℝ)) :=
  ⟨onZeroSum_inRange false,
    resample_zero_weights (Random.onZeroSum false : Random ℝ Unit) (onZeroSum_inRange false)
      ⟨3, true, [⟨0, 1, 1, 0, 0⟩, ⟨1, 2, 2, 0, 0⟩, ⟨2, 3, 3, 0, 0⟩], [0, 0, 0]⟩
      (by simp) rfl⟩

end ParticleFilterLocalization
